import Mathlib

/-!
Verification of the in-memory chat core of the `verbjs/examples` repository
(`websocket-chat/src/server.ts` `ChatManager`, `websocket-chat/src/chat/messages.ts`
`MessageStore` and `RoomManager`, and the `SessionManager` username validator).

JavaScript `Map`s are embedded as association lists (`List (String × α)`) with
`Map.set` / `Map.delete` / `Map.get` modelled by `KV.setKey` / `KV.eraseKey` /
`List.lookup`; JS `Set<string>` is a `List String` with insertion-order add.
`Date` timestamps are `Nat` milliseconds.  WebSocket sends are modelled as a
pure effect log: every `ws.send` fan-out becomes an `Effect` value recording
the target room, the envelope and the list of recipient session ids.
-/

namespace KV

/-- Whether the map has an entry with the given key. -/
def hasKey {α : Type} (l : List (String × α)) (k : String) : Prop :=
  ∃ p ∈ l, p.1 = k

instance {α : Type} (l : List (String × α)) (k : String) : Decidable (hasKey l k) :=
  List.decidableBEx _ l

/-- `Map.set`: replace the value at an existing key in place, otherwise append. -/
def setKey {α : Type} (l : List (String × α)) (k : String) (v : α) : List (String × α) :=
  if hasKey l k then
    l.map (fun p => if p.1 = k then (k, v) else p)
  else
    l ++ [(k, v)]

/-- `Map.delete`: remove the entry with the given key. -/
def eraseKey {α : Type} (l : List (String × α)) (k : String) : List (String × α) :=
  l.filter (fun p => p.1 != k)

end KV

open KV

namespace Chat

/-! ### State of `ChatManager` (`websocket-chat/src/server.ts`) -/

/-- `ChatUser` minus the `id` field (records are indexed by their id key). -/
structure ChatUser where
  username : String
  isGuest : Bool
deriving DecidableEq

/-- `ChatMessage`; `isSystem` embeds the `'message' | 'system'` type tag. -/
structure ChatMessage where
  id : String
  content : String
  userId : String
  username : String
  roomId : String
  timestamp : Nat
  isSystem : Bool
deriving DecidableEq

/-- `ChatRoom` minus the `id` field; `users` is the JS `Set<string>` of user ids. -/
structure ChatRoom where
  name : String
  description : String
  isPrivate : Bool
  users : List String
  messages : List ChatMessage
deriving DecidableEq

/-- `ChatSession` minus the `id` and `ws` fields; `currentRoom` is the nullable pointer. -/
structure ChatSession where
  userId : String
  username : String
  currentRoom : Option String
  isGuest : Bool
deriving DecidableEq

structure TypingIndicator where
  userId : String
  roomId : String
  timestamp : Nat
deriving DecidableEq

/-- The four private `Map`s of `ChatManager`. -/
structure ChatState where
  rooms : List (String × ChatRoom)
  users : List (String × ChatUser)
  sessions : List (String × ChatSession)
  typingIndicators : List (String × TypingIndicator)
deriving DecidableEq

/-- Outbound envelope kinds produced by `ChatManager` broadcasts. -/
inductive Envelope where
  | user_joined (username : String)
  | user_left (username : String)
  | room_users (roomId : String) (members : List (String × ChatUser))
  | chat_message (m : ChatMessage)
  | typing_start (username : String)
  | typing_stop (username : String)
deriving DecidableEq

/-- One `broadcastToRoom` call: target room, envelope, recipient session ids. -/
structure Effect where
  roomId : String
  env : Envelope
  recipients : List String
deriving DecidableEq

/-- JS `Set.add`: append if not already present. -/
def addToSet (l : List String) (x : String) : List String :=
  if x ∈ l then l else l ++ [x]

/-- The sessions that receive a `broadcastToRoom(roomId, _, excludeSessions)`:
sessions whose `currentRoom` is the room, minus the excluded ones. -/
def roomRecipients (st : ChatState) (roomId : String) (excludeSessions : List String) :
    List String :=
  (st.sessions.filter
    (fun p => p.2.currentRoom == some roomId && !(excludeSessions.contains p.1))).map Prod.fst

/-- `broadcastToRoom`: no-op when the room is unknown, one fan-out otherwise. -/
def broadcastToRoom (st : ChatState) (roomId : String) (env : Envelope)
    (excludeSessions : List String) : List Effect :=
  match st.rooms.lookup roomId with
  | none => []
  | some _ => [⟨roomId, env, roomRecipients st roomId excludeSessions⟩]

/-- `Array.from(room.users).map(id => users.get(id)).filter(Boolean)`:
member ids resolved against the user registry, unresolvable ids dropped. -/
def resolveUsers (st : ChatState) (userIds : List String) : List (String × ChatUser) :=
  userIds.filterMap (fun uid => (st.users.lookup uid).map (fun u => (uid, u)))

/-- `broadcastRoomUsers`: sends the resolved member list to the room. -/
def broadcastRoomUsers (st : ChatState) (roomId : String) : List Effect :=
  match st.rooms.lookup roomId with
  | none => []
  | some room =>
    [⟨roomId, .room_users roomId (resolveUsers st room.users), roomRecipients st roomId []⟩]

/-- `ChatManager.leaveRoom` (server.ts lines 124-140). -/
def leaveRoom (st : ChatState) (sessionId roomId : String) : ChatState × List Effect :=
  match st.sessions.lookup sessionId, st.rooms.lookup roomId with
  | some s, some room =>
    let room1 := { room with users := room.users.filter (fun u => u != s.userId) }
    let st1 : ChatState :=
      { st with
        rooms := setKey st.rooms roomId room1,
        sessions := setKey st.sessions sessionId { s with currentRoom := none } }
    (st1, broadcastToRoom st1 roomId (.user_left s.username) [] ++ broadcastRoomUsers st1 roomId)
  | _, _ => (st, [])

/-- `ChatManager.joinRoom` (server.ts lines 101-122): implicit leave of the
current room, then membership add, then `user_joined` + member-list broadcasts. -/
def joinRoom (st : ChatState) (sessionId roomId : String) : Bool × ChatState × List Effect :=
  match st.sessions.lookup sessionId, st.rooms.lookup roomId with
  | some s, some room =>
    let stepLeave : ChatState × List Effect :=
      match s.currentRoom with
      | some cur => leaveRoom st sessionId cur
      | none => (st, [])
    let st1 := stepLeave.1
    let s1 := (st1.sessions.lookup sessionId).getD s
    let room1 := (st1.rooms.lookup roomId).getD room
    let room2 := { room1 with users := addToSet room1.users s1.userId }
    let st2 : ChatState :=
      { st1 with
        rooms := setKey st1.rooms roomId room2,
        sessions := setKey st1.sessions sessionId { s1 with currentRoom := some roomId } }
    (true, st2,
      stepLeave.2 ++ broadcastToRoom st2 roomId (.user_joined s1.username) []
        ++ broadcastRoomUsers st2 roomId)
  | _, _ => (false, st, [])

/-- `ChatManager.removeSession` (server.ts lines 93-99). -/
def removeSession (st : ChatState) (sessionId : String) : ChatState × List Effect :=
  let stepLeave : ChatState × List Effect :=
    match st.sessions.lookup sessionId with
    | some s =>
      match s.currentRoom with
      | some cur => leaveRoom st sessionId cur
      | none => (st, [])
    | none => (st, [])
  ({ stepLeave.1 with sessions := eraseKey stepLeave.1.sessions sessionId }, stepLeave.2)

/-- `ChatManager.sendMessage` (server.ts lines 142-171); the fresh UUID and
`Date` are passed in as `msgId` and `now`. -/
def sendMessage (st : ChatState) (sessionId content msgId : String) (now : Nat) :
    Bool × ChatState × List Effect :=
  match st.sessions.lookup sessionId with
  | none => (false, st, [])
  | some s =>
    match s.currentRoom with
    | none => (false, st, [])
    | some roomId =>
      match st.rooms.lookup roomId with
      | none => (false, st, [])
      | some room =>
        let msg : ChatMessage := ⟨msgId, content, s.userId, s.username, roomId, now, false⟩
        let pushed := room.messages ++ [msg]
        let trimmed := if pushed.length > 100 then pushed.drop (pushed.length - 100) else pushed
        let st1 : ChatState :=
          { st with rooms := setKey st.rooms roomId { room with messages := trimmed } }
        (true, st1, broadcastToRoom st1 roomId (.chat_message msg) [])

def typingKey (userId roomId : String) : String := userId ++ "-" ++ roomId

/-- `ChatManager.startTyping` (server.ts lines 173-189): refresh the indicator
and broadcast `typing_start` excluding the originating session. -/
def startTyping (st : ChatState) (sessionId roomId : String) (now : Nat) :
    ChatState × List Effect :=
  match st.sessions.lookup sessionId with
  | none => (st, [])
  | some s =>
    let st1 : ChatState :=
      { st with
        typingIndicators :=
          setKey st.typingIndicators (typingKey s.userId roomId) ⟨s.userId, roomId, now⟩ }
    (st1, broadcastToRoom st1 roomId (.typing_start s.username) [sessionId])

/-- `ChatManager.stopTyping` (server.ts lines 191-203): clear the indicator and
broadcast `typing_stop`, likewise excluding the originating session. -/
def stopTyping (st : ChatState) (sessionId roomId : String) : ChatState × List Effect :=
  match st.sessions.lookup sessionId with
  | none => (st, [])
  | some s =>
    let st1 : ChatState :=
      { st with typingIndicators := eraseKey st.typingIndicators (typingKey s.userId roomId) }
    (st1, broadcastToRoom st1 roomId (.typing_stop s.username) [sessionId])

/-- `ChatManager.getUsernameById` (server.ts lines 221-224). -/
def getUsernameById (st : ChatState) (userId : String) : String :=
  match st.users.lookup userId with
  | some u => u.username
  | none => "Unknown"

/-- The 5000 ms staleness threshold in `startTypingCleanup`. -/
def typingTimeoutMs : Nat := 5000

/-- The 1000 ms `setInterval` period of `startTypingCleanup`. -/
def typingSweepPeriodMs : Nat := 1000

/-- The body of the `startTypingCleanup` loop over the indicator entries:
expired entries are deleted and produce a `typing_stop` broadcast (recipients
and usernames read the registries, which the loop never mutates). -/
def sweepEntries (st : ChatState) (now : Nat) :
    List (String × TypingIndicator) → List (String × TypingIndicator) × List Effect
  | [] => ([], [])
  | (k, ind) :: rest =>
    let step := sweepEntries st now rest
    if now - ind.timestamp > typingTimeoutMs then
      (step.1,
        broadcastToRoom st ind.roomId (.typing_stop (getUsernameById st ind.userId)) [] ++ step.2)
    else ((k, ind) :: step.1, step.2)

/-- One tick of the `startTypingCleanup` interval timer (server.ts lines 205-219). -/
def sweepTick (st : ChatState) (now : Nat) : ChatState × List Effect :=
  let step := sweepEntries st now st.typingIndicators
  ({ st with typingIndicators := step.1 }, step.2)

/-! ### Membership invariant -/

/-- The spec invariant: a user id is in a room's member set iff some session of
that user has the room as its current room.  Phrased over the map entries. -/
def MemInv (st : ChatState) : Prop :=
  (∀ p ∈ st.rooms, ∀ u ∈ p.2.users,
      ∃ q ∈ st.sessions, q.2.currentRoom = some p.1 ∧ q.2.userId = u) ∧
  (∀ q ∈ st.sessions, ∀ p ∈ st.rooms, q.2.currentRoom = some p.1 → q.2.userId ∈ p.2.users)

/-- Distinct sessions carry distinct user ids (every connection creates a fresh
user, so this holds for all states the server ever builds). -/
def SessInj (st : ChatState) : Prop :=
  ∀ q ∈ st.sessions, ∀ q' ∈ st.sessions, q.2.userId = q'.2.userId → q.1 = q'.1

/-- The association lists have pairwise-distinct keys, as JS `Map`s do. -/
def KeysOk (st : ChatState) : Prop :=
  (st.rooms.map Prod.fst).Nodup ∧ (st.sessions.map Prod.fst).Nodup

def Good (st : ChatState) : Prop := MemInv st ∧ SessInj st ∧ KeysOk st

instance (st : ChatState) : Decidable (MemInv st) := by
  unfold MemInv
  infer_instance

instance (st : ChatState) : Decidable (SessInj st) := by
  unfold SessInj
  infer_instance

instance (st : ChatState) : Decidable (KeysOk st) := by
  unfold KeysOk
  infer_instance

instance (st : ChatState) : Decidable (Good st) := by
  unfold Good
  infer_instance

end Chat

namespace Chat

/-! ### Concrete states used by counterexamples and witnesses -/

/-- Two rooms, one registered user whose session is in `roomA`. -/
def exA : ChatState :=
  { rooms := [("roomA", ⟨"Room A", "", false, ["u1"], []⟩),
              ("roomB", ⟨"Room B", "", false, [], []⟩)],
    users := [("u1", ⟨"alice", false⟩)],
    sessions := [("s1", ⟨"u1", "alice", some "roomA", false⟩)],
    typingIndicators := [] }

/-- One room holding two registered users, both sessions inside it. -/
def exB : ChatState :=
  { rooms := [("general", ⟨"General", "", false, ["u1", "u2"], []⟩)],
    users := [("u1", ⟨"alice", false⟩), ("u2", ⟨"bob", false⟩)],
    sessions := [("s1", ⟨"u1", "alice", some "general", false⟩),
                 ("s2", ⟨"u2", "bob", some "general", false⟩)],
    typingIndicators := [] }

/-- The state with no rooms, users, sessions or typing indicators. -/
def exEmpty : ChatState := ⟨[], [], [], []⟩

end Chat

namespace MStore

/-! ### `MessageStore` (`websocket-chat/src/chat/messages.ts`) -/

/-- `Message` restricted to the fields the verified operations read
(reply/reaction/edit data is untouched by add/delete/eviction). -/
structure Msg where
  id : String
  roomId : String
  userId : String
  content : String
  timestamp : Nat
deriving DecidableEq

/-- The two private `Map`s of `MessageStore`. -/
structure MessageStore where
  messages : List (String × List Msg)
  messageIndex : List (String × Msg)
deriving DecidableEq

/-- The `maxMessages = 1000` default of `cleanupOldMessages`. -/
def maxMessagesPerRoom : Nat := 1000

/-- `MessageStore.cleanupOldMessages` (messages.ts lines 173-179): splice the
oldest entries beyond the cap off the front and drop them from the index. -/
def cleanupOldMessages (store : MessageStore) (roomId : String) (maxMessages : Nat) :
    MessageStore :=
  match store.messages.lookup roomId with
  | none => store
  | some roomMessages =>
    if roomMessages.length > maxMessages then
      let toRemove := roomMessages.take (roomMessages.length - maxMessages)
      let kept := roomMessages.drop (roomMessages.length - maxMessages)
      { messages := KV.setKey store.messages roomId kept,
        messageIndex := toRemove.foldl (fun idx m => KV.eraseKey idx m.id) store.messageIndex }
    else store

/-- `MessageStore.addMessage` (messages.ts lines 7-29); the fresh UUID and the
`Date` are passed in as `msgId` and `now`. -/
def addMessage (store : MessageStore) (roomId userId content msgId : String) (now : Nat) :
    MessageStore × Msg :=
  let msg : Msg := ⟨msgId, roomId, userId, content, now⟩
  let roomMessages := (store.messages.lookup roomId).getD []
  let store1 : MessageStore :=
    { messages := KV.setKey store.messages roomId (roomMessages ++ [msg]),
      messageIndex := KV.setKey store.messageIndex msgId msg }
  (cleanupOldMessages store1 roomId maxMessagesPerRoom, msg)

/-- `MessageStore.getMessage` (messages.ts lines 49-55). -/
def getMessage (store : MessageStore) (messageId : String) : Option Msg :=
  store.messageIndex.lookup messageId

/-- `roomMessages.findIndex` + `splice(index, 1)`: drop the first entry with
the given id, identity when no entry matches. -/
def eraseFirstMsg : List Msg → String → List Msg
  | [], _ => []
  | m :: rest, mid => if m.id = mid then rest else m :: eraseFirstMsg rest mid

/-- `MessageStore.deleteMessage` (messages.ts lines 120-140). -/
def deleteMessage (store : MessageStore) (messageId userId : String)
    (isModeratorAction : Bool) : MessageStore × Bool :=
  match store.messageIndex.lookup messageId with
  | none => (store, false)
  | some msg =>
    if !isModeratorAction && msg.userId != userId then (store, false)
    else
      let messages1 :=
        match store.messages.lookup msg.roomId with
        | none => store.messages
        | some roomMessages => KV.setKey store.messages msg.roomId (eraseFirstMsg roomMessages messageId)
      ({ messages := messages1, messageIndex := KV.eraseKey store.messageIndex messageId }, true)

/-- A room's stored history (the `Map.get(roomId) ?? []` view). -/
def history (store : MessageStore) (roomId : String) : List Msg :=
  (store.messages.lookup roomId).getD []

/-- Whether some stored message of the list carries the given id. -/
def idInList (l : List Msg) (mid : String) : Bool :=
  l.any (fun m => m.id == mid)

/-- Well-formedness of the two maps: distinct keys, per-room distinct message
ids, and the index is exactly the set of messages reachable from histories. -/
def WF (store : MessageStore) : Prop :=
  (store.messages.map Prod.fst).Nodup ∧
  (store.messageIndex.map Prod.fst).Nodup ∧
  (∀ p ∈ store.messages, (p.2.map Msg.id).Nodup) ∧
  (∀ p ∈ store.messages, ∀ m ∈ p.2,
      m.roomId = p.1 ∧ store.messageIndex.lookup m.id = some m) ∧
  (∀ q ∈ store.messageIndex, q.2.id = q.1 ∧
      ∃ p ∈ store.messages, p.1 = q.2.roomId ∧ q.2 ∈ p.2)

instance (store : MessageStore) : Decidable (WF store) := by
  unfold WF
  infer_instance

/-! ### The 1001-message eviction drill -/

/-- Distinct fresh message ids: `n+1` copies of `a`. -/
def mkId (n : Nat) : String := String.mk (List.replicate (n + 1) 'a')

def emptyStore : MessageStore := ⟨[], []⟩

/-- Sequentially apply `addMessage` for each `(id, content)` item. -/
def addMessages (store : MessageStore) (roomId userId : String)
    (items : List (String × String)) : MessageStore :=
  items.foldl (fun acc it => (addMessage acc roomId userId it.2 it.1 0).1) store

def capItems (n : Nat) : List (String × String) :=
  (List.range n).map (fun i => (mkId i, "hello"))

def capMsgs (n : Nat) : List Msg :=
  (List.range n).map (fun i => ⟨mkId i, "general", "alice", "hello", 0⟩)

/-- The store after 1001 sequential sends into `general` starting empty. -/
def capFinal : MessageStore := addMessages emptyStore "general" "alice" (capItems 1001)

end MStore

namespace RoomMgr

/-! ### `RoomManager` (`websocket-chat/src/chat/messages.ts` lines 182-336) -/

/-- `Room` minus the `id` field; member and moderator `Set`s as lists. -/
structure Room where
  name : String
  description : String
  isPrivate : Bool
  createdBy : String
  users : List String
  moderators : List String
deriving DecidableEq

/-- The `{ success, error? }` result shape of the mutating operations. -/
structure OpResult where
  success : Bool
  error : Option String
deriving DecidableEq

structure RState where
  rooms : List (String × Room)
deriving DecidableEq

/-- `RoomManager.isModerator`. -/
def isModerator (st : RState) (roomId userId : String) : Bool :=
  match st.rooms.lookup roomId with
  | some room => room.moderators.contains userId
  | none => false

/-- The ids seeded by `createDefaultRooms` and protected in `deleteRoom`. -/
def defaultRoomIds : List String := ["general", "random"]

/-- `RoomManager.deleteRoom` (messages.ts lines 319-335). -/
def deleteRoom (st : RState) (roomId requesterId : String) : OpResult × RState :=
  match st.rooms.lookup roomId with
  | none => (⟨false, some "Room not found"⟩, st)
  | some room =>
    if room.createdBy != requesterId then
      (⟨false, some "Only room creator can delete the room"⟩, st)
    else if defaultRoomIds.contains roomId then
      (⟨false, some "Cannot delete default rooms"⟩, st)
    else
      (⟨true, none⟩, { rooms := KV.eraseKey st.rooms roomId })

/-- A tiny registry with one user-created room, for the witness. -/
def exR : RState :=
  { rooms := [("general", ⟨"General", "", false, "system", [], ["system"]⟩),
              ("room-1", ⟨"My Room", "", false, "alice", [], ["alice"]⟩)] }

end RoomMgr

namespace SessionMgr

/-! ### `SessionManager` (`websocket-chat` test sources) -/

/-- The `'online' | 'away' | 'offline'` user status.  Connection close flips a
user to `offline` ("logically destroyed" in the spec) without removing it. -/
inductive Status where
  | online
  | away
  | offline
deriving DecidableEq

/-- `User` restricted to the fields the verified operations read or write
(`id` is the map key; `displayName`/`isGuest`/`joinedAt` are write-only here). -/
structure User where
  username : String
  status : Status
  lastSeen : Nat
deriving DecidableEq

/-- The two private `Map`s of `SessionManager`: users by id, and the
session-id-to-user-id binding. -/
structure SState where
  users : List (String × User)
  sessions : List (String × String)
deriving DecidableEq

structure ValidationResult where
  valid : Bool
  error : Option String
deriving DecidableEq

/-- `SessionManager.createUser`; the fresh UUID and `Date` are passed in. -/
def createUser (st : SState) (username userId : String) (now : Nat) : SState :=
  { st with users := KV.setKey st.users userId ⟨username, Status.online, now⟩ }

/-- `SessionManager.createSession`; the fresh session id is passed in. -/
def createSession (st : SState) (sessionId userId : String) : SState :=
  { st with sessions := KV.setKey st.sessions sessionId userId }

/-- `SessionManager.updateUserStatus`: set the status and refresh `lastSeen`;
no-op when the user id is unknown. -/
def updateUserStatus (st : SState) (userId : String) (status : Status) (now : Nat) : SState :=
  match st.users.lookup userId with
  | some u => { st with users := KV.setKey st.users userId { u with status := status, lastSeen := now } }
  | none => st

/-- `SessionManager.removeSession`: flip the owning user to `offline` and drop
the session binding; the user record itself is never deleted. -/
def removeSession (st : SState) (sessionId : String) (now : Nat) : SState :=
  match st.sessions.lookup sessionId with
  | some userId =>
    let st1 := updateUserStatus st userId Status.offline now
    { st1 with sessions := KV.eraseKey st1.sessions sessionId }
  | none => st

/-- `String.toLowerCase()` on the character sequence (ASCII case folding,
written over `data` so that it evaluates in the kernel). -/
def lowerStr (s : String) : String := String.mk (s.data.map Char.toLower)

/-- One character of the `/^[a-zA-Z0-9_-]+$/` class. -/
def isAllowedChar (c : Char) : Bool :=
  (('a' ≤ c && c ≤ 'z') || ('A' ≤ c && c ≤ 'Z') || ('0' ≤ c && c ≤ '9')
    || c == '_' || c == '-')

/-- The full-string regex test `/^[a-zA-Z0-9_-]+$/.test(username)`. -/
def regexOk (username : String) : Bool :=
  !username.data.isEmpty && username.data.all isAllowedChar

/-- `SessionManager.validateUsername`.  JS `username.trim().length === 0` is
embedded as `all isWhitespace` (a string trims to empty exactly when every
character is whitespace); `!username` is the `isEmpty` disjunct. -/
def validateUsername (st : SState) (username : String) : ValidationResult :=
  if username.isEmpty || username.data.all (fun c => c.isWhitespace) then
    ⟨false, some "Username is required"⟩
  else if username.length < 2 || username.length > 20 then
    ⟨false, some "Username must be 2-20 characters"⟩
  else if !(regexOk username) then
    ⟨false, some "Username can only contain letters, numbers, underscore, and dash"⟩
  else if st.users.any (fun p => lowerStr p.2.username == lowerStr username) then
    ⟨false, some "Username already taken"⟩
  else ⟨true, none⟩

/-- The registry after `Alice` connects and then disconnects: her identity is
logically destroyed (status `offline`) but still present in the users map. -/
def exS : SState :=
  removeSession (createSession (createUser ⟨[], []⟩ "Alice" "u1" 0) "sess1" "u1") "sess1" 1

end SessionMgr

/-! ## Association-list lemmas -/

namespace KV

theorem lookup_cons {α : Type} (k a : String) (b : α) (l : List (String × α)) :
    List.lookup k ((a, b) :: l) = if k = a then some b else List.lookup k l := by
  by_cases h : k = a
  · subst h
    simp [List.lookup]
  · simp [List.lookup, beq_false_of_ne h, h]

theorem lookup_some_mem {α : Type} {l : List (String × α)} {k : String} {v : α}
    (h : l.lookup k = some v) : (k, v) ∈ l := by
  induction l with
  | nil => simp [List.lookup] at h
  | cons p rest ih =>
    rcases p with ⟨a, b⟩
    rw [lookup_cons] at h
    by_cases hk : k = a
    · rw [if_pos hk] at h
      cases h
      subst hk
      exact List.mem_cons_self _ _
    · rw [if_neg hk] at h
      exact List.mem_cons_of_mem _ (ih h)

theorem lookup_eq_none_iff {α : Type} {l : List (String × α)} {k : String} :
    l.lookup k = none ↔ ∀ p ∈ l, p.1 ≠ k := by
  induction l with
  | nil => simp [List.lookup]
  | cons p rest ih =>
    rcases p with ⟨a, b⟩
    rw [lookup_cons]
    by_cases hk : k = a
    · subst hk
      simp [ih]
    · rw [if_neg hk, ih]
      simp only [List.mem_cons]
      constructor
      · rintro h q (rfl | hq)
        · exact fun hEq => hk hEq.symm
        · exact h q hq
      · intro h q hq
        exact h q (Or.inr hq)

theorem lookup_of_mem_nodup {α : Type} {l : List (String × α)} {p : String × α}
    (hnd : (l.map Prod.fst).Nodup) (hmem : p ∈ l) : l.lookup p.1 = some p.2 := by
  induction l with
  | nil => simp at hmem
  | cons q rest ih =>
    rcases q with ⟨a, b⟩
    simp only [List.map_cons, List.nodup_cons] at hnd
    rw [lookup_cons]
    rcases List.mem_cons.1 hmem with h | h
    · subst h
      simp
    · have hne : p.1 ≠ a := by
        intro hEq
        exact hnd.1 (hEq ▸ List.mem_map_of_mem Prod.fst h)
      rw [if_neg hne]
      exact ih hnd.2 h

theorem mem_setKey {α : Type} {l : List (String × α)} {k : String} {v : α} {p : String × α} :
    p ∈ setKey l k v ↔ (p ∈ l ∧ p.1 ≠ k) ∨ p = (k, v) := by
  unfold setKey
  by_cases hpres : hasKey l k
  · rw [if_pos hpres]
    simp only [List.mem_map]
    constructor
    · rintro ⟨q, hq, hEq⟩
      by_cases hqk : q.1 = k
      · rw [if_pos hqk] at hEq
        exact Or.inr hEq.symm
      · rw [if_neg hqk] at hEq
        exact Or.inl ⟨hEq ▸ hq, hEq ▸ hqk⟩
    · rintro (⟨hmem, hne⟩ | hEq)
      · exact ⟨p, hmem, if_neg hne⟩
      · rcases hpres with ⟨q, hq, hqk⟩
        exact ⟨q, hq, by rw [if_pos hqk, hEq]⟩
  · rw [if_neg hpres]
    simp only [List.mem_append, List.mem_singleton]
    have hall : ∀ q ∈ l, q.1 ≠ k := by
      intro q hq hqk
      exact hpres ⟨q, hq, hqk⟩
    constructor
    · rintro (h | h)
      · exact Or.inl ⟨h, hall p h⟩
      · exact Or.inr h
    · rintro (⟨h, _⟩ | h)
      · exact Or.inl h
      · exact Or.inr h

theorem lookup_setKey_self {α : Type} (l : List (String × α)) (k : String) (v : α) :
    (setKey l k v).lookup k = some v := by
  unfold setKey
  by_cases hpres : hasKey l k
  · rw [if_pos hpres]
    induction l with
    | nil => exact absurd hpres (by simp [hasKey])
    | cons q rest ih =>
      rcases q with ⟨a, b⟩
      by_cases hak : a = k
      · subst hak
        simp [lookup_cons]
      · have hka : k ≠ a := fun h => hak h.symm
        have hrest : hasKey rest k := by
          rcases hpres with ⟨p, hp, hpk⟩
          rcases List.mem_cons.1 hp with h | h
          · rw [h] at hpk
            exact absurd hpk hak
          · exact ⟨p, h, hpk⟩
        simpa [lookup_cons, hak, hka] using ih hrest
  · rw [if_neg hpres]
    induction l with
    | nil => simp [List.lookup]
    | cons q rest ih =>
      rcases q with ⟨a, b⟩
      have hak : a ≠ k := fun h => hpres ⟨(a, b), List.mem_cons_self _ _, h⟩
      have hka : k ≠ a := fun h => hak h.symm
      have hrest : ¬ hasKey rest k := by
        rintro ⟨p, hp, hpk⟩
        exact hpres ⟨p, List.mem_cons_of_mem _ hp, hpk⟩
      simpa [lookup_cons, hka] using ih hrest

theorem lookup_setKey_ne {α : Type} (l : List (String × α)) (k : String) (v : α)
    {k' : String} (h : k' ≠ k) : (setKey l k v).lookup k' = l.lookup k' := by
  unfold setKey
  by_cases hpres : hasKey l k
  · rw [if_pos hpres]
    clear hpres
    induction l with
    | nil => simp
    | cons q rest ih =>
      rcases q with ⟨a, b⟩
      by_cases hak : a = k
      · subst hak
        simpa [lookup_cons, h, fun hEq => h hEq] using ih
      · by_cases hk'a : k' = a
        · subst hk'a
          simp [lookup_cons, hak]
        · simpa [lookup_cons, hak, hk'a] using ih
  · rw [if_neg hpres]
    induction l with
    | nil => simp [List.lookup, beq_false_of_ne h]
    | cons q rest ih =>
      rcases q with ⟨a, b⟩
      have hrest : ¬ hasKey rest k := by
        rintro ⟨p, hp, hpk⟩
        exact hpres ⟨p, List.mem_cons_of_mem _ hp, hpk⟩
      by_cases hk'a : k' = a
      · subst hk'a
        simp [lookup_cons]
      · simpa [lookup_cons, hk'a] using ih hrest

theorem keys_setKey_of_present {α : Type} {l : List (String × α)} {k : String} (v : α)
    (hpres : hasKey l k) : (setKey l k v).map Prod.fst = l.map Prod.fst := by
  unfold setKey
  rw [if_pos hpres]
  rw [List.map_map]
  apply List.map_congr_left
  intro p _
  by_cases hpk : p.1 = k
  · simp [hpk]
  · simp [if_neg hpk]

theorem nodup_keys_setKey {α : Type} {l : List (String × α)} {k : String} {v : α}
    (hnd : (l.map Prod.fst).Nodup) : ((setKey l k v).map Prod.fst).Nodup := by
  by_cases hpres : hasKey l k
  · rw [keys_setKey_of_present v hpres]
    exact hnd
  · unfold setKey
    rw [if_neg hpres]
    simp only [List.map_append, List.map_cons, List.map_nil]
    rw [List.nodup_append]
    refine ⟨hnd, List.nodup_singleton k, ?_⟩
    intro a ha hb
    simp only [List.mem_singleton] at hb
    subst hb
    rcases List.mem_map.1 ha with ⟨q, hq, hqk⟩
    exact hpres ⟨q, hq, hqk⟩

theorem mem_eraseKey {α : Type} {l : List (String × α)} {k : String} {p : String × α} :
    p ∈ eraseKey l k ↔ p ∈ l ∧ p.1 ≠ k := by
  unfold eraseKey
  simp [List.mem_filter, bne_iff_ne]

theorem lookup_eraseKey_self {α : Type} (l : List (String × α)) (k : String) :
    (eraseKey l k).lookup k = none := by
  rw [lookup_eq_none_iff]
  intro p hp
  exact (mem_eraseKey.1 hp).2

theorem lookup_eraseKey_ne {α : Type} (l : List (String × α)) (k : String)
    {k' : String} (h : k' ≠ k) : (eraseKey l k).lookup k' = l.lookup k' := by
  unfold eraseKey
  induction l with
  | nil => simp
  | cons q rest ih =>
    rcases q with ⟨a, b⟩
    rw [List.filter_cons]
    by_cases hak : a = k
    · subst hak
      simpa [lookup_cons, h] using ih
    · by_cases hk'a : k' = a
      · subst hk'a
        simp [lookup_cons, bne_iff_ne, hak]
      · simpa [lookup_cons, bne_iff_ne, hak, hk'a] using ih

theorem nodup_keys_eraseKey {α : Type} {l : List (String × α)} {k : String}
    (hnd : (l.map Prod.fst).Nodup) : ((eraseKey l k).map Prod.fst).Nodup := by
  unfold eraseKey
  exact hnd.sublist (List.Sublist.map Prod.fst (List.filter_sublist l))

theorem setKey_eq_self {α : Type} {l : List (String × α)} {k : String} {v : α}
    (hpres : hasKey l k)
    (hall : ∀ p ∈ l, p.1 = k → p = (k, v)) : setKey l k v = l := by
  unfold setKey
  rw [if_pos hpres]
  conv_rhs => rw [← List.map_id l]
  apply List.map_congr_left
  intro p hp
  by_cases hpk : p.1 = k
  · rw [if_pos hpk, id]
    exact (hall p hp hpk).symm
  · rw [if_neg hpk, id]

theorem setKey_setKey_same {α : Type} (l : List (String × α)) (k : String) (v : α) :
    setKey (setKey l k v) k v = setKey l k v := by
  apply setKey_eq_self
  · exact ⟨(k, v), mem_setKey.2 (Or.inr rfl), rfl⟩
  · intro p hp hpk
    rcases mem_setKey.1 hp with ⟨_, hne⟩ | hEq
    · exact absurd hpk hne
    · exact hEq

end KV

open KV

namespace Chat

/-! ### Unfolding and broadcast-scope lemmas -/

theorem leaveRoom_no_session {st : ChatState} {sid rid : String}
    (hs : st.sessions.lookup sid = none) : leaveRoom st sid rid = (st, []) := by
  simp [leaveRoom, hs]

theorem leaveRoom_no_room {st : ChatState} {sid rid : String}
    (hr : st.rooms.lookup rid = none) : leaveRoom st sid rid = (st, []) := by
  cases hs : st.sessions.lookup sid <;> simp [leaveRoom, hs, hr]

theorem leaveRoom_found {st : ChatState} {sid rid : String} {s : ChatSession} {room : ChatRoom}
    (hs : st.sessions.lookup sid = some s) (hr : st.rooms.lookup rid = some room) :
    (leaveRoom st sid rid).1 =
      { st with
        rooms := setKey st.rooms rid
          { room with users := room.users.filter (fun u => u != s.userId) },
        sessions := setKey st.sessions sid { s with currentRoom := none } } := by
  simp [leaveRoom, hs, hr]

theorem mem_roomRecipients {st : ChatState} {rid : String} {excl : List String} {x : String} :
    x ∈ roomRecipients st rid excl ↔
      ∃ s, (x, s) ∈ st.sessions ∧ s.currentRoom = some rid ∧ x ∉ excl := by
  unfold roomRecipients
  simp only [List.mem_map, List.mem_filter, Bool.and_eq_true, beq_iff_eq,
    Bool.not_eq_true', ← Bool.not_eq_true, List.elem_iff]
  constructor
  · rintro ⟨⟨a, s⟩, ⟨⟨hmem, hcur, hexcl⟩, rfl⟩⟩
    exact ⟨s, hmem, hcur, hexcl⟩
  · rintro ⟨s, hmem, hcur, hexcl⟩
    exact ⟨(x, s), ⟨hmem, hcur, hexcl⟩, rfl⟩

theorem mem_broadcastToRoom {st : ChatState} {rid : String} {env : Envelope}
    {excl : List String} {e : Effect} (he : e ∈ broadcastToRoom st rid env excl) :
    e.roomId = rid ∧ e.env = env ∧ e.recipients = roomRecipients st rid excl := by
  unfold broadcastToRoom at he
  cases hr : st.rooms.lookup rid <;> rw [hr] at he
  · simp at he
  · simp at he
    subst he
    exact ⟨rfl, rfl, rfl⟩

/-! ### Claim C4: leaveRoom state idempotence -/

/-- Claim C4 (amended): calling `leaveRoom` twice for the same session and room
never errors and the second call changes no registry state (the counterexample
shows it does, however, re-broadcast `user_left`/member-list envelopes). -/
theorem leaveRoom_twice_state_idempotent (st : ChatState) (sid rid : String) :
    (leaveRoom (leaveRoom st sid rid).1 sid rid).1 = (leaveRoom st sid rid).1 := by
  cases hs : st.sessions.lookup sid with
  | none =>
    have h1 : leaveRoom st sid rid = (st, []) := leaveRoom_no_session hs
    rw [h1]
    rw [h1]
  | some s =>
    cases hr : st.rooms.lookup rid with
    | none =>
      have h1 : leaveRoom st sid rid = (st, []) := leaveRoom_no_room hr
      rw [h1]
      rw [h1]
    | some room =>
      have h1 := leaveRoom_found hs hr
      rw [h1]
      have hs2 : (setKey st.sessions sid { s with currentRoom := none }).lookup sid
          = some { s with currentRoom := none } := lookup_setKey_self _ _ _
      have hr2 : (setKey st.rooms rid
            { room with users := room.users.filter (fun u => u != s.userId) }).lookup rid
          = some { room with users := room.users.filter (fun u => u != s.userId) } :=
        lookup_setKey_self _ _ _
      have h2 := @leaveRoom_found
        { st with
          rooms := setKey st.rooms rid
            { room with users := room.users.filter (fun u => u != s.userId) },
          sessions := setKey st.sessions sid { s with currentRoom := none } }
        sid rid { s with currentRoom := none }
        { room with users := room.users.filter (fun u => u != s.userId) } hs2 hr2
      rw [h2]
      have hfilter :
          (room.users.filter (fun u => u != s.userId)).filter (fun u => u != s.userId)
            = room.users.filter (fun u => u != s.userId) :=
        List.filter_eq_self.mpr (fun a ha => (List.mem_filter.1 ha).2)
      simp only [hfilter]
      simp only [setKey_setKey_same]

/-- Claim C4 counterexample: with two sessions in `general`, a second
`leaveRoom` for the already-departed session still produces broadcasts. -/
theorem leave_twice_broadcasts_cex :
    (leaveRoom (leaveRoom exB "s1" "general").1 "s1" "general").2 ≠ [] := by decide

end Chat

namespace Chat

/-! ### Claim C5: typing broadcast scope -/

theorem startTyping_effects {st : ChatState} {sid rid : String} {now : Nat} {s : ChatSession}
    (hs : st.sessions.lookup sid = some s) :
    (startTyping st sid rid now).2 =
      broadcastToRoom
        { st with
          typingIndicators :=
            setKey st.typingIndicators (typingKey s.userId rid) ⟨s.userId, rid, now⟩ }
        rid (.typing_start s.username) [sid] := by
  simp [startTyping, hs]

theorem stopTyping_effects {st : ChatState} {sid rid : String} {s : ChatSession}
    (hs : st.sessions.lookup sid = some s) :
    (stopTyping st sid rid).2 =
      broadcastToRoom
        { st with typingIndicators := eraseKey st.typingIndicators (typingKey s.userId rid) }
        rid (.typing_stop s.username) [sid] := by
  simp [stopTyping, hs]

theorem sweepEntries_effects_shape (st : ChatState) (now : Nat)
    (l : List (String × TypingIndicator)) :
    ∀ e ∈ (sweepEntries st now l).2, e.recipients = roomRecipients st e.roomId [] := by
  induction l with
  | nil =>
    intro e he
    simp [sweepEntries] at he
  | cons q rest ih =>
    rcases q with ⟨k, ind⟩
    intro e he
    by_cases hexp : now - ind.timestamp > typingTimeoutMs
    · simp only [sweepEntries, if_pos hexp, List.mem_append] at he
      rcases he with he | he
      · have h := mem_broadcastToRoom he
        rw [h.2.2, h.1]
      · exact ih e he
    · simp only [sweepEntries, if_neg hexp] at he
      exact ih e he

/-- Claim C5 (amended): `startTyping` and the explicit `stopTyping` both
broadcast to the room excluding the originating session, while only the
sweeper-initiated expiry broadcasts to the full room including the
originator's session (if it is still in the room). -/
theorem typing_broadcast_scope (st : ChatState) (sid rid : String) (now : Nat)
    (s : ChatSession) (hs : st.sessions.lookup sid = some s) :
    (∀ e ∈ (startTyping st sid rid now).2, sid ∉ e.recipients
        ∧ ∀ sid2 s2, st.sessions.lookup sid2 = some s2 → s2.currentRoom = some rid →
            sid2 ≠ sid → sid2 ∈ e.recipients)
  ∧ (∀ e ∈ (stopTyping st sid rid).2, sid ∉ e.recipients
        ∧ ∀ sid2 s2, st.sessions.lookup sid2 = some s2 → s2.currentRoom = some rid →
            sid2 ≠ sid → sid2 ∈ e.recipients)
  ∧ (∀ e ∈ (sweepTick st now).2, ∀ sid2 s2, st.sessions.lookup sid2 = some s2 →
        s2.currentRoom = some e.roomId → sid2 ∈ e.recipients) := by
  have hexcl : ∀ e : Effect, e.recipients = roomRecipients st rid [sid] →
      sid ∉ e.recipients ∧ ∀ sid2 s2, st.sessions.lookup sid2 = some s2 →
        s2.currentRoom = some rid → sid2 ≠ sid → sid2 ∈ e.recipients := by
    intro e hrec
    rw [hrec]
    constructor
    · intro hmem
      rcases mem_roomRecipients.1 hmem with ⟨s', _, _, habs⟩
      exact habs (List.mem_singleton.2 rfl)
    · intro sid2 s2 hs2 hcur2 hne
      exact mem_roomRecipients.2
        ⟨s2, lookup_some_mem hs2, hcur2, fun h => hne (List.mem_singleton.1 h)⟩
  refine ⟨?_, ?_, ?_⟩
  · intro e he
    rw [startTyping_effects hs] at he
    exact hexcl e (mem_broadcastToRoom he).2.2
  · intro e he
    rw [stopTyping_effects hs] at he
    exact hexcl e (mem_broadcastToRoom he).2.2
  · intro e he
    have hrec : e.recipients = roomRecipients st e.roomId [] :=
      sweepEntries_effects_shape st now st.typingIndicators e he
    intro sid2 s2 hs2 hcur2
    rw [hrec]
    exact mem_roomRecipients.2 ⟨s2, lookup_some_mem hs2, hcur2, List.not_mem_nil sid2⟩

/-- Witness for C5 at a concrete two-session room. -/
theorem typing_broadcast_scope_witness :
    (∀ e ∈ (startTyping exB "s1" "general" 0).2, "s1" ∉ e.recipients
        ∧ ∀ sid2 s2, exB.sessions.lookup sid2 = some s2 → s2.currentRoom = some "general" →
            sid2 ≠ "s1" → sid2 ∈ e.recipients)
  ∧ (∀ e ∈ (stopTyping exB "s1" "general").2, "s1" ∉ e.recipients
        ∧ ∀ sid2 s2, exB.sessions.lookup sid2 = some s2 → s2.currentRoom = some "general" →
            sid2 ≠ "s1" → sid2 ∈ e.recipients)
  ∧ (∀ e ∈ (sweepTick exB 0).2, ∀ sid2 s2, exB.sessions.lookup sid2 = some s2 →
        s2.currentRoom = some e.roomId → sid2 ∈ e.recipients) :=
  typing_broadcast_scope exB "s1" "general" 0 ⟨"u1", "alice", some "general", false⟩ rfl

/-- Claim C5 counterexample: the explicit `stopTyping` does not deliver to the
full room — the originating session `s1`, though in `general`, is excluded
from the (nonempty) `typing_stop` broadcast. -/
theorem stopTyping_excludes_origin_cex :
    (stopTyping exB "s1" "general").2 ≠ []
  ∧ ∀ e ∈ (stopTyping exB "s1" "general").2, "s1" ∉ e.recipients := by decide

/-! ### Claim C7: sweeper expiry -/

theorem sweepEntries_spec (st : ChatState) (now : Nat) (l : List (String × TypingIndicator)) :
    (sweepEntries st now l).1
        = l.filter (fun p => !decide (now - p.2.timestamp > typingTimeoutMs))
  ∧ (sweepEntries st now l).2
        = (l.filter (fun p => decide (now - p.2.timestamp > typingTimeoutMs))).flatMap
            (fun p =>
              broadcastToRoom st p.2.roomId (.typing_stop (getUsernameById st p.2.userId)) []) := by
  induction l with
  | nil => simp [sweepEntries]
  | cons q rest ih =>
    rcases q with ⟨k, ind⟩
    by_cases hexp : now - ind.timestamp > typingTimeoutMs
    · simp [sweepEntries, hexp, List.filter_cons, ih.1, ih.2]
    · simp [sweepEntries, hexp, List.filter_cons, ih.1, ih.2]

/-- Claim C7: each sweep tick removes exactly the typing indicators older than
the 5000 ms timeout, broadcasting a `typing_stop` for each removed key to its
room; an unresolvable user id degrades to the `Unknown` placeholder; the sweep
runs every 1000 ms with a 5000 ms timeout. -/
theorem sweep_expiry (st : ChatState) (now : Nat) :
    (sweepTick st now).1.typingIndicators
        = st.typingIndicators.filter (fun p => !decide (now - p.2.timestamp > typingTimeoutMs))
  ∧ (sweepTick st now).2
        = (st.typingIndicators.filter
              (fun p => decide (now - p.2.timestamp > typingTimeoutMs))).flatMap
            (fun p =>
              broadcastToRoom st p.2.roomId (.typing_stop (getUsernameById st p.2.userId)) [])
  ∧ (∀ uid, st.users.lookup uid = none → getUsernameById st uid = "Unknown")
  ∧ typingSweepPeriodMs = 1000 ∧ typingTimeoutMs = 5000 := by
  refine ⟨(sweepEntries_spec st now st.typingIndicators).1,
          (sweepEntries_spec st now st.typingIndicators).2, ?_, rfl, rfl⟩
  intro uid h
  simp [getUsernameById, h]

/-- Witness for C7: the placeholder clause at the empty registry. -/
theorem sweep_expiry_witness : getUsernameById exEmpty "u1" = "Unknown" :=
  (sweep_expiry exEmpty 0).2.2.1 "u1" rfl

end Chat

namespace Chat

/-! ### Claims C6 and C3: join ordering and re-join -/

theorem mem_addToSet {l : List String} {x y : String} :
    y ∈ addToSet l x ↔ y ∈ l ∨ y = x := by
  unfold addToSet
  by_cases hx : x ∈ l
  · rw [if_pos hx]
    constructor
    · exact Or.inl
    · rintro (h | rfl)
      · exact h
      · exact hx
  · rw [if_neg hx]
    simp

theorem mem_resolveUsers {st : ChatState} {uids : List String} {x : String × ChatUser} :
    x ∈ resolveUsers st uids ↔ x.1 ∈ uids ∧ st.users.lookup x.1 = some x.2 := by
  unfold resolveUsers
  rw [List.mem_filterMap]
  constructor
  · rintro ⟨uid, hmem, hres⟩
    cases hlk : st.users.lookup uid with
    | none => rw [hlk] at hres; simp at hres
    | some cu =>
      rw [hlk] at hres
      simp at hres
      rw [← hres]
      exact ⟨hmem, hlk⟩
  · rintro ⟨hmem, hres⟩
    exact ⟨x.1, hmem, by rw [hres]; simp⟩

theorem leaveRoom_eq_found {st : ChatState} {sid rid : String} {s : ChatSession}
    {room : ChatRoom} (hs : st.sessions.lookup sid = some s)
    (hr : st.rooms.lookup rid = some room) {st1 : ChatState}
    (hst1 : st1 =
      { st with
        rooms := setKey st.rooms rid
          { room with users := room.users.filter (fun u => u != s.userId) },
        sessions := setKey st.sessions sid { s with currentRoom := none } }) :
    leaveRoom st sid rid =
      (st1, broadcastToRoom st1 rid (.user_left s.username) [] ++ broadcastRoomUsers st1 rid) := by
  subst hst1
  simp [leaveRoom, hs, hr]

/-- Claim C6: joining room B from room A performs the leave of A first — the
effect log is exactly `user_left`+member-list to A followed by
`user_joined`+member-list to B, with A's member list already free of the
switching user and B's member list already containing it. -/
theorem room_switch_ordering (st : ChatState) (sid ridA ridB : String)
    (s : ChatSession) (rA rB : ChatRoom) (u : ChatUser)
    (hs : st.sessions.lookup sid = some s) (hcur : s.currentRoom = some ridA)
    (hA : st.rooms.lookup ridA = some rA) (hB : st.rooms.lookup ridB = some rB)
    (hne : ridB ≠ ridA) (hu : st.users.lookup s.userId = some u) :
    ∃ dataA dataB recA1 recA2 recB1 recB2,
      (joinRoom st sid ridB).2.2 =
        [⟨ridA, .user_left s.username, recA1⟩,
         ⟨ridA, .room_users ridA dataA, recA2⟩,
         ⟨ridB, .user_joined s.username, recB1⟩,
         ⟨ridB, .room_users ridB dataB, recB2⟩]
      ∧ (∀ x ∈ dataA, x.1 ≠ s.userId)
      ∧ (∃ x ∈ dataB, x.1 = s.userId) := by
  have hAne : ridA ≠ ridB := fun h => hne h.symm
  simp only [joinRoom, hs, hB, hcur, leaveRoom_eq_found hs hA rfl]
  simp only [lookup_setKey_self, lookup_setKey_ne _ _ _ hne, hB, Option.getD_some,
    broadcastToRoom, broadcastRoomUsers, lookup_setKey_self]
  refine ⟨_, _, _, _, _, _, rfl, ?_, ?_⟩
  · intro x hx
    have hmem := (mem_resolveUsers.1 hx).1
    have := List.mem_filter.1 hmem
    simpa [bne_iff_ne] using this.2
  · refine ⟨(s.userId, u), mem_resolveUsers.2 ⟨?_, ?_⟩, rfl⟩
    · exact mem_addToSet.2 (Or.inr rfl)
    · exact hu

/-- Witness for C6 at the concrete two-room state. -/
theorem room_switch_ordering_witness :
    ∃ dataA dataB recA1 recA2 recB1 recB2,
      (joinRoom exA "s1" "roomB").2.2 =
        [⟨"roomA", .user_left "alice", recA1⟩,
         ⟨"roomA", .room_users "roomA" dataA, recA2⟩,
         ⟨"roomB", .user_joined "alice", recB1⟩,
         ⟨"roomB", .room_users "roomB" dataB, recB2⟩]
      ∧ (∀ x ∈ dataA, x.1 ≠ "u1")
      ∧ (∃ x ∈ dataB, x.1 = "u1") :=
  room_switch_ordering exA "s1" "roomA" "roomB" ⟨"u1", "alice", some "roomA", false⟩
    ⟨"Room A", "", false, ["u1"], []⟩ ⟨"Room B", "", false, [], []⟩ ⟨"alice", false⟩
    rfl rfl rfl rfl (by decide) rfl

/-- Claim C3 (amended): re-joining the current room reports success and leaves
the registry unchanged (same member set, same session record), but it is not
effect-free — the implicit leave-then-rejoin emits broadcasts (see the
counterexample). -/
theorem rejoin_idempotent_state (st : ChatState) (sid rid : String) (s : ChatSession)
    (room : ChatRoom) (hs : st.sessions.lookup sid = some s)
    (hcur : s.currentRoom = some rid) (hr : st.rooms.lookup rid = some room)
    (hinv : MemInv st) :
    (joinRoom st sid rid).1 = true
  ∧ (∃ room2, (joinRoom st sid rid).2.1.rooms.lookup rid = some room2
        ∧ ∀ x, x ∈ room2.users ↔ x ∈ room.users)
  ∧ (joinRoom st sid rid).2.1.sessions.lookup sid = some s := by
  have huser : s.userId ∈ room.users :=
    hinv.2 (sid, s) (lookup_some_mem hs) (rid, room) (lookup_some_mem hr) hcur
  simp only [joinRoom, hs, hr, hcur, leaveRoom_eq_found hs hr rfl]
  simp only [lookup_setKey_self, Option.getD_some]
  refine ⟨trivial, ⟨_, rfl, ?_⟩, ?_⟩
  · intro x
    simp only [mem_addToSet]
    constructor
    · rintro (hx | rfl)
      · exact (List.mem_filter.1 hx).1
      · exact huser
    · intro hx
      by_cases hxu : x = s.userId
      · exact Or.inr hxu
      · exact Or.inl (List.mem_filter.2 ⟨hx, by simp [bne_iff_ne, hxu]⟩)
  · cases s with
    | mk userId username currentRoom isGuest =>
      simp at hcur
      simp [hcur]

/-- Witness for C3 at the concrete state `exB`. -/
theorem rejoin_idempotent_state_witness :
    (joinRoom exB "s1" "general").1 = true
  ∧ (∃ room2, (joinRoom exB "s1" "general").2.1.rooms.lookup "general" = some room2
        ∧ ∀ x, x ∈ room2.users ↔ x ∈ (⟨"General", "", false, ["u1", "u2"], []⟩ : ChatRoom).users)
  ∧ (joinRoom exB "s1" "general").2.1.sessions.lookup "s1"
        = some ⟨"u1", "alice", some "general", false⟩ :=
  rejoin_idempotent_state exB "s1" "general" ⟨"u1", "alice", some "general", false⟩
    ⟨"General", "", false, ["u1", "u2"], []⟩ rfl rfl rfl (by decide)

/-- Claim C3 counterexample: the re-join is not a silent no-op — it emits a
`user_left` broadcast (followed by re-join broadcasts) to the room. -/
theorem rejoin_not_effect_free_cex :
    (joinRoom exB "s1" "general").2.2 ≠ []
  ∧ ∃ e ∈ (joinRoom exB "s1" "general").2.2, e.env = Envelope.user_left "alice" := by decide

end Chat

namespace KV

theorem entry_eq_of_lookup {α : Type} {l : List (String × α)} {k : String} {v : α}
    (hnd : (l.map Prod.fst).Nodup) (hlk : l.lookup k = some v)
    {p : String × α} (hp : p ∈ l) (hpk : p.1 = k) : p = (k, v) := by
  have h := lookup_of_mem_nodup hnd hp
  rw [hpk, hlk] at h
  cases h
  cases p
  cases hpk
  rfl

end KV

namespace Chat

/-! ### Claim C1: membership invariant preservation -/

theorem good_leaveRoom_current {st : ChatState} {sid rid : String} {s : ChatSession}
    (hG : Good st) (hs : st.sessions.lookup sid = some s)
    (hcur : s.currentRoom = some rid) : Good (leaveRoom st sid rid).1 := by
  obtain ⟨⟨hinv1, hinv2⟩, hinj, hkR, hkS⟩ := hG
  cases hr : st.rooms.lookup rid with
  | none =>
    rw [leaveRoom_no_room hr]
    exact ⟨⟨hinv1, hinv2⟩, hinj, hkR, hkS⟩
  | some room =>
    rw [leaveRoom_found hs hr]
    have hsmem : (sid, s) ∈ st.sessions := lookup_some_mem hs
    refine ⟨⟨?_, ?_⟩, ?_, ?_, ?_⟩
    · -- members are covered by sessions
      intro p hp u' hu'
      rcases mem_setKey.1 hp with ⟨hpold, hpne⟩ | rfl
      · rcases hinv1 p hpold u' hu' with ⟨q, hq, hqcur, hquid⟩
        have hqne : q.1 ≠ sid := by
          intro hqk
          have := entry_eq_of_lookup hkS hs hq hqk
          rw [this] at hqcur
          rw [hcur] at hqcur
          exact hpne (Option.some.inj hqcur).symm
        exact ⟨q, mem_setKey.2 (Or.inl ⟨hq, hqne⟩), hqcur, hquid⟩
      · have hu'f := List.mem_filter.1 hu'
        have hu'ne : u' ≠ s.userId := by simpa [bne_iff_ne] using hu'f.2
        rcases hinv1 (rid, room) (lookup_some_mem hr) u' hu'f.1 with ⟨q, hq, hqcur, hquid⟩
        have hqne : q.1 ≠ sid := by
          intro hqk
          have := entry_eq_of_lookup hkS hs hq hqk
          rw [this] at hquid
          exact hu'ne hquid.symm
        exact ⟨q, mem_setKey.2 (Or.inl ⟨hq, hqne⟩), hqcur, hquid⟩
    · -- sessions point into member sets
      intro q' hq' p' hp' hq'cur
      rcases mem_setKey.1 hq' with ⟨hqold, hqne⟩ | rfl
      · rcases mem_setKey.1 hp' with ⟨hpold, hpne⟩ | rfl
        · exact hinv2 q' hqold p' hpold hq'cur
        · have hmem := hinv2 q' hqold (rid, room) (lookup_some_mem hr) hq'cur
          have hne : q'.2.userId ≠ s.userId := by
            intro hEq
            exact hqne (hinj q' hqold (sid, s) hsmem hEq)
          exact List.mem_filter.2 ⟨hmem, by simp [bne_iff_ne, hne]⟩
      · simp at hq'cur
    · -- session-to-user injectivity
      intro q hq q' hq' hEq
      have hproj : ∀ r ∈ setKey st.sessions sid { s with currentRoom := none },
          ∃ r0 ∈ st.sessions, r0.1 = r.1 ∧ r0.2.userId = r.2.userId := by
        intro r hr'
        rcases mem_setKey.1 hr' with ⟨hold, _⟩ | rfl
        · exact ⟨r, hold, rfl, rfl⟩
        · exact ⟨(sid, s), hsmem, rfl, rfl⟩
      rcases hproj q hq with ⟨q0, hq0, hq0k, hq0u⟩
      rcases hproj q' hq' with ⟨q0', hq0', hq0'k, hq0'u⟩
      rw [← hq0k, ← hq0'k]
      exact hinj q0 hq0 q0' hq0' (by rw [hq0u, hq0'u, hEq])
    · exact nodup_keys_setKey hkR
    · exact nodup_keys_setKey hkS

theorem good_joinCore (st1 : ChatState) {sid rid : String} (s1 : ChatSession)
    (room1 : ChatRoom) (hG1 : Good st1) (hs1 : st1.sessions.lookup sid = some s1)
    (hr1 : st1.rooms.lookup rid = some room1)
    (hfree : ∀ p ∈ st1.rooms, s1.currentRoom ≠ some p.1) :
    Good { st1 with
      rooms := setKey st1.rooms rid { room1 with users := addToSet room1.users s1.userId },
      sessions := setKey st1.sessions sid { s1 with currentRoom := some rid } } := by
  obtain ⟨⟨hinv1, hinv2⟩, hinj, hkR, hkS⟩ := hG1
  have hsmem : (sid, s1) ∈ st1.sessions := lookup_some_mem hs1
  have hnewmem : (sid, { s1 with currentRoom := some rid }) ∈
      setKey st1.sessions sid { s1 with currentRoom := some rid } :=
    mem_setKey.2 (Or.inr rfl)
  refine ⟨⟨?_, ?_⟩, ?_, ?_, ?_⟩
  · intro p hp u' hu'
    rcases mem_setKey.1 hp with ⟨hpold, hpne⟩ | rfl
    · rcases hinv1 p hpold u' hu' with ⟨q, hq, hqcur, hquid⟩
      have hqne : q.1 ≠ sid := by
        intro hqk
        have := entry_eq_of_lookup hkS hs1 hq hqk
        rw [this] at hqcur
        exact hfree p hpold hqcur
      exact ⟨q, mem_setKey.2 (Or.inl ⟨hq, hqne⟩), hqcur, hquid⟩
    · rcases mem_addToSet.1 hu' with hu'old | rfl
      · by_cases hu'id : u' = s1.userId
        · exact ⟨(sid, { s1 with currentRoom := some rid }), hnewmem, rfl, hu'id.symm⟩
        · rcases hinv1 (rid, room1) (lookup_some_mem hr1) u' hu'old with ⟨q, hq, hqcur, hquid⟩
          have hqne : q.1 ≠ sid := by
            intro hqk
            have := entry_eq_of_lookup hkS hs1 hq hqk
            rw [this] at hquid
            exact hu'id hquid.symm
          exact ⟨q, mem_setKey.2 (Or.inl ⟨hq, hqne⟩), hqcur, hquid⟩
      · exact ⟨(sid, { s1 with currentRoom := some rid }), hnewmem, rfl, rfl⟩
  · intro q' hq' p' hp' hq'cur
    rcases mem_setKey.1 hq' with ⟨hqold, hqne⟩ | rfl
    · rcases mem_setKey.1 hp' with ⟨hpold, hpne⟩ | rfl
      · exact hinv2 q' hqold p' hpold hq'cur
      · have hmem := hinv2 q' hqold (rid, room1) (lookup_some_mem hr1) hq'cur
        exact mem_addToSet.2 (Or.inl hmem)
    · simp only at hq'cur
      cases hq'cur
      rcases mem_setKey.1 hp' with ⟨hpold, hpne⟩ | hpeq
      · exact absurd rfl hpne
      · rw [hpeq]
        exact mem_addToSet.2 (Or.inr rfl)
  · intro q hq q' hq' hEq
    have hproj : ∀ r ∈ setKey st1.sessions sid { s1 with currentRoom := some rid },
        ∃ r0 ∈ st1.sessions, r0.1 = r.1 ∧ r0.2.userId = r.2.userId := by
      intro r hr'
      rcases mem_setKey.1 hr' with ⟨hold, _⟩ | rfl
      · exact ⟨r, hold, rfl, rfl⟩
      · exact ⟨(sid, s1), hsmem, rfl, rfl⟩
    rcases hproj q hq with ⟨q0, hq0, hq0k, hq0u⟩
    rcases hproj q' hq' with ⟨q0', hq0', hq0'k, hq0'u⟩
    rw [← hq0k, ← hq0'k]
    exact hinj q0 hq0 q0' hq0' (by rw [hq0u, hq0'u, hEq])
  · exact nodup_keys_setKey hkR
  · exact nodup_keys_setKey hkS

theorem good_erase {st : ChatState} (hG : Good st) (sid : String)
    (hsafe : ∀ q ∈ st.sessions, q.1 = sid → ∀ p ∈ st.rooms, q.2.currentRoom ≠ some p.1) :
    Good { st with sessions := eraseKey st.sessions sid } := by
  obtain ⟨⟨hinv1, hinv2⟩, hinj, hkR, hkS⟩ := hG
  refine ⟨⟨?_, ?_⟩, ?_, ?_, ?_⟩
  · intro p hp u' hu'
    rcases hinv1 p hp u' hu' with ⟨q, hq, hqcur, hquid⟩
    have hqne : q.1 ≠ sid := by
      intro hqk
      exact hsafe q hq hqk p hp hqcur
    exact ⟨q, mem_eraseKey.2 ⟨hq, hqne⟩, hqcur, hquid⟩
  · intro q' hq' p' hp' hq'cur
    exact hinv2 q' (mem_eraseKey.1 hq').1 p' hp' hq'cur
  · intro q hq q' hq' hEq
    exact hinj q (mem_eraseKey.1 hq).1 q' (mem_eraseKey.1 hq').1 hEq
  · exact hkR
  · exact nodup_keys_eraseKey hkS

/-- Claim C1 (amended): the membership invariant (with per-session user-id
freshness and map well-formedness) is preserved by every `joinRoom` and every
`removeSession`, and by `leaveRoom` whenever it is invoked with the session's
current room — which is the only way the code ever invokes it (the implicit
leave inside `joinRoom` and the cleanup in `removeSession`).  A direct
`leaveRoom` with a different room id can break the invariant (counterexample). -/
theorem membership_invariant_preserved (st : ChatState) (hG : Good st) :
    (∀ sid rid, Good (joinRoom st sid rid).2.1)
  ∧ (∀ sid rid s, st.sessions.lookup sid = some s → s.currentRoom = some rid →
        Good (leaveRoom st sid rid).1)
  ∧ (∀ sid, Good (removeSession st sid).1) := by
  refine ⟨?_, ?_, ?_⟩
  · intro sid rid
    cases hs : st.sessions.lookup sid with
    | none =>
      simpa [joinRoom, hs] using hG
    | some s =>
      cases hr : st.rooms.lookup rid with
      | none =>
        simpa [joinRoom, hs, hr] using hG
      | some room =>
        cases hcur : s.currentRoom with
        | none =>
          simp only [joinRoom, hs, hr, hcur, Option.getD_some]
          exact good_joinCore st s room hG hs hr (by intro p _ h; rw [hcur] at h; cases h)
        | some cur =>
          cases hcr : st.rooms.lookup cur with
          | none =>
            simp only [joinRoom, hs, hr, hcur, leaveRoom_no_room hcr, Option.getD_some]
            refine good_joinCore st s room hG hs hr ?_
            intro p hp h
            rw [hcur] at h
            cases h
            exact (lookup_eq_none_iff.1 hcr p hp) rfl
          | some croom =>
            have hG1 := good_leaveRoom_current hG hs hcur
            rw [leaveRoom_found hs hcr] at hG1
            simp only [joinRoom, hs, hr, hcur, leaveRoom_eq_found hs hcr rfl]
            have hs1 :
                (setKey st.sessions sid { s with currentRoom := none }).lookup sid
                  = some { s with currentRoom := none } := lookup_setKey_self _ _ _
            by_cases hrc : rid = cur
            · subst hrc
              have hr1 : (setKey st.rooms rid
                    { croom with users := croom.users.filter (fun u => u != s.userId) }).lookup rid
                  = some { croom with users := croom.users.filter (fun u => u != s.userId) } :=
                lookup_setKey_self _ _ _
              simp only [hs1, hr1, Option.getD_some]
              exact good_joinCore
                { st with
                  rooms := setKey st.rooms rid
                    { croom with users := croom.users.filter (fun u => u != s.userId) },
                  sessions := setKey st.sessions sid { s with currentRoom := none } }
                { s with currentRoom := none }
                { croom with users := croom.users.filter (fun u => u != s.userId) }
                hG1 hs1 hr1 (by intro p _ h; cases h)
            · have hr1 : (setKey st.rooms cur
                    { croom with users := croom.users.filter (fun u => u != s.userId) }).lookup rid
                  = some room := by
                rw [lookup_setKey_ne _ _ _ hrc]
                exact hr
              simp only [hs1, hr1, Option.getD_some]
              exact good_joinCore
                { st with
                  rooms := setKey st.rooms cur
                    { croom with users := croom.users.filter (fun u => u != s.userId) },
                  sessions := setKey st.sessions sid { s with currentRoom := none } }
                { s with currentRoom := none } room
                hG1 hs1 hr1 (by intro p _ h; cases h)
  · intro sid rid s hs hcur
    exact good_leaveRoom_current hG hs hcur
  · intro sid
    cases hs : st.sessions.lookup sid with
    | none =>
      simp only [removeSession, hs]
      refine good_erase hG sid ?_
      intro q hq hqk _ _ _
      exact (lookup_eq_none_iff.1 hs q hq) hqk
    | some s =>
      cases hcur : s.currentRoom with
      | none =>
        simp only [removeSession, hs, hcur]
        refine good_erase hG sid ?_
        intro q hq hqk p hp h
        have := entry_eq_of_lookup hG.2.2.2 hs hq hqk
        rw [this] at h
        simp only at h
        rw [hcur] at h
        cases h
      | some cur =>
        cases hcr : st.rooms.lookup cur with
        | none =>
          simp only [removeSession, hs, hcur, leaveRoom_no_room hcr]
          refine good_erase hG sid ?_
          intro q hq hqk p hp h
          have := entry_eq_of_lookup hG.2.2.2 hs hq hqk
          rw [this] at h
          simp only at h
          rw [hcur] at h
          cases h
          exact (lookup_eq_none_iff.1 hcr p hp) rfl
        | some croom =>
          have hG1 := good_leaveRoom_current hG hs hcur
          rw [leaveRoom_found hs hcr] at hG1
          simp only [removeSession, hs, hcur, leaveRoom_eq_found hs hcr rfl]
          refine good_erase hG1 sid ?_
          intro q hq hqk p hp h
          have hs1 :
              (setKey st.sessions sid { s with currentRoom := none }).lookup sid
                = some { s with currentRoom := none } := lookup_setKey_self _ _ _
          have := entry_eq_of_lookup hG1.2.2.2 hs1 hq hqk
          rw [this] at h
          cases h

/-- Witness for C1: the preserved invariant at a concrete room switch. -/
theorem membership_invariant_preserved_witness :
    Good exA ∧ Good (joinRoom exA "s1" "roomB").2.1 :=
  ⟨by decide, (membership_invariant_preserved exA (by decide)).1 "s1" "roomB"⟩

/-- Claim C1 counterexample: `leaveRoom` invoked with a room other than the
session's current room clears the `currentRoom` pointer without removing the
user from its actual room, breaking the invariant. -/
theorem membership_invariant_leaveRoom_mismatch_cex :
    Good exA ∧ ¬ MemInv (leaveRoom exA "s1" "roomB").1 := by decide

end Chat

namespace RoomMgr

/-! ### Claim C8: default-room deletion protection -/

/-- Claim C8: `deleteRoom('general', r)` fails for every requester and every
registry state; in general a successful delete implies the requester is the
room creator (in particular a moderator or the creator) and the room is not a
default room. -/
theorem deleteRoom_protection :
    (∀ st requesterId, ((deleteRoom st "general" requesterId).1).success = false)
  ∧ (∀ st roomId requesterId, ((deleteRoom st roomId requesterId).1).success = true →
      (isModerator st roomId requesterId = true
        ∨ ∃ room, st.rooms.lookup roomId = some room ∧ room.createdBy = requesterId)
      ∧ roomId ∉ defaultRoomIds) := by
  constructor
  · intro st r
    cases hlk : st.rooms.lookup "general" with
    | none => simp [deleteRoom, hlk]
    | some room =>
      by_cases hcb : room.createdBy = r
      · simp [deleteRoom, hlk, hcb, defaultRoomIds]
      · simp [deleteRoom, hlk, bne_iff_ne, hcb]
  · intro st roomId r hsucc
    cases hlk : st.rooms.lookup roomId with
    | none => simp [deleteRoom, hlk] at hsucc
    | some room =>
      by_cases hcb : room.createdBy = r
      · by_cases hdef : roomId ∈ defaultRoomIds
        · exfalso
          simp [deleteRoom, hlk, hcb, hdef] at hsucc
        · exact ⟨Or.inr ⟨room, rfl, hcb⟩, hdef⟩
      · simp [deleteRoom, hlk, bne_iff_ne, hcb] at hsucc

/-- Witness for C8 at a concrete registry. -/
theorem deleteRoom_protection_witness :
    ((deleteRoom exR "general" "alice").1).success = false
  ∧ ((isModerator exR "room-1" "alice" = true
        ∨ ∃ room, exR.rooms.lookup "room-1" = some room ∧ room.createdBy = "alice")
      ∧ "room-1" ∉ defaultRoomIds) :=
  ⟨deleteRoom_protection.1 exR "alice",
   deleteRoom_protection.2 exR "room-1" "alice" (by decide)⟩

end RoomMgr

namespace SessionMgr

/-! ### Claim C9: display-name validation -/

theorem not_whitespace_of_allowed {c : Char} (h : isAllowedChar c = true) :
    c.isWhitespace = false := by
  by_contra hws
  rw [Bool.not_eq_false] at hws
  have hcases : ((c = ' ' ∨ c = '\t') ∨ c = '\x0d') ∨ c = '\n' := by
    simpa [Char.isWhitespace] using hws
  rcases hcases with ((rfl | rfl) | rfl) | rfl <;> exact absurd h (by decide)

/-- Claim C9 (amended): `validateUsername` accepts exactly the names of length
2..20 whose characters are all in `[a-zA-Z0-9_-]` and whose lowercase form is
not already held by ANY registered identity — the scan never filters by
status, so offline (logically destroyed) identities block a name just like
online ones; every other name is rejected.  The counterexample shows the
original active-identity reading failing on an offline holder. -/
theorem validateUsername_spec (st : SState) (username : String) :
    ((validateUsername st username).valid = true) ↔
      (2 ≤ username.length ∧ username.length ≤ 20
        ∧ (∀ c ∈ username.data, isAllowedChar c = true)
        ∧ (∀ p ∈ st.users, lowerStr p.2.username ≠ lowerStr username)) := by
  unfold validateUsername
  split_ifs with h1 h2 h3 h4
  · -- empty or all-whitespace: rejected, and the right side cannot hold
    simp only [ValidationResult.valid, Bool.false_eq_true, false_iff]
    rintro ⟨hl2, _, hall, _⟩
    rcases Bool.or_eq_true_iff.1 h1 with hemp | hws
    · have : username = "" := (String.isEmpty_iff username).1 hemp
      rw [this] at hl2
      simp [String.length] at hl2
    · cases hd : username.data with
      | nil =>
        have : username.length = 0 := by simp [String.length, hd]
        omega
      | cons c rest =>
        have hcmem : c ∈ username.data := by rw [hd]; exact List.mem_cons_self _ _
        have hcallowed := hall c hcmem
        have := List.all_eq_true.1 hws c hcmem
        rw [not_whitespace_of_allowed hcallowed] at this
        cases this
  · -- wrong length: rejected, and the right side cannot hold
    simp only [ValidationResult.valid, Bool.false_eq_true, false_iff]
    rintro ⟨hl2, hl20, _, _⟩
    rcases Bool.or_eq_true_iff.1 h2 with h | h
    · simp at h
      omega
    · simp at h
      omega
  · -- regex failure: rejected, and the right side cannot hold
    simp only [ValidationResult.valid, Bool.false_eq_true, false_iff]
    rintro ⟨hl2, _, hall, _⟩
    rw [Bool.not_eq_true'] at h3
    rcases Bool.and_eq_false_iff.1 h3 with h | h
    · have hisEmpty : username.data.isEmpty = true := by
        cases hbe : username.data.isEmpty with
        | true => rfl
        | false => rw [hbe] at h; exact Bool.noConfusion h
      have : username.data = [] := by simpa [List.isEmpty_iff] using hisEmpty
      rw [String.length] at hl2
      rw [this] at hl2
      simp at hl2
    · rcases List.all_eq_false.1 h with ⟨c, hc, hcbad⟩
      exact hcbad (hall c hc)
  · -- name already taken: rejected, and the right side cannot hold
    simp only [ValidationResult.valid, Bool.false_eq_true, false_iff]
    rintro ⟨_, _, _, huniq⟩
    rcases List.any_eq_true.1 h4 with ⟨p, hp, hbeq⟩
    exact huniq p hp (by simpa using hbeq)
  · -- accepted: the right side holds
    simp only [ValidationResult.valid, true_iff]
    have hlen : ¬ (decide (username.length < 2) || decide (username.length > 20)) = true := h2
    simp only [Bool.or_eq_true, decide_eq_true_eq, not_or] at hlen
    rw [Bool.not_eq_true] at h3
    have hreg : regexOk username = true := by
      cases hr : regexOk username with
      | true => rfl
      | false => rw [hr] at h3; exact Bool.noConfusion h3
    rw [regexOk, Bool.and_eq_true] at hreg
    refine ⟨by omega, by omega, List.all_eq_true.1 hreg.2, ?_⟩
    intro p hp hEq
    exact h4 (List.any_eq_true.2 ⟨p, hp, by simp [hEq]⟩)

/-- Concrete sanity checks of the validator. -/
theorem validateUsername_spec_examples :
    (validateUsername ⟨[("u1", ⟨"Alice", Status.online, 0⟩)], []⟩ "bob_1").valid = true
  ∧ (validateUsername ⟨[("u1", ⟨"Alice", Status.online, 0⟩)], []⟩ "aLiCe").valid = false
  ∧ (validateUsername ⟨[], []⟩ "a").valid = false
  ∧ (validateUsername ⟨[], []⟩ "bad name").valid = false := by decide

/-- Claim C9 counterexample: after `Alice` disconnects, the only holder of the
name is an offline — logically destroyed — identity, so `alice` is not in use
by any active identity and meets every other condition of the claim, yet the
validator still rejects it: the uniqueness scan ranges over all registered
identities regardless of status. -/
theorem validateUsername_active_identity_cex :
    (∀ p ∈ exS.users, p.2.status = Status.offline)
  ∧ 2 ≤ ("alice" : String).length ∧ ("alice" : String).length ≤ 20
  ∧ (∀ c ∈ ("alice" : String).data, isAllowedChar c = true)
  ∧ (¬ ∃ p ∈ exS.users, p.2.status ≠ Status.offline
        ∧ lowerStr p.2.username = lowerStr "alice")
  ∧ (validateUsername exS "alice").valid = false := by decide

end SessionMgr

namespace MStore

/-! ### Index bookkeeping lemmas -/

theorem lookup_foldl_erase (removed : List Msg) :
    ∀ (idx : List (String × Msg)) (k : String),
      (removed.foldl (fun idx m => eraseKey idx m.id) idx).lookup k
        = if ∃ m ∈ removed, m.id = k then none else idx.lookup k := by
  induction removed with
  | nil =>
    intro idx k
    rw [if_neg (by rintro ⟨m, hm, _⟩; simp at hm)]
    rfl
  | cons m rest ih =>
    intro idx k
    rw [List.foldl_cons, ih]
    by_cases hmk : m.id = k
    · by_cases hr : ∃ m' ∈ rest, m'.id = k
      · rw [if_pos hr, if_pos ⟨m, List.mem_cons_self _ _, hmk⟩]
      · rw [if_neg hr, if_pos ⟨m, List.mem_cons_self _ _, hmk⟩, ← hmk]
        exact lookup_eraseKey_self idx m.id
    · by_cases hr : ∃ m' ∈ rest, m'.id = k
      · rw [if_pos hr, if_pos (by rcases hr with ⟨m', hm', h⟩; exact ⟨m', List.mem_cons_of_mem _ hm', h⟩)]
      · rw [if_neg hr, if_neg ?side, lookup_eraseKey_ne idx m.id (fun h => hmk h.symm)]
        case side =>
          rintro ⟨m', hm', h⟩
          rcases List.mem_cons.1 hm' with rfl | hm'
          · exact hmk h
          · exact hr ⟨m', hm', h⟩

theorem mem_foldl_erase (removed : List Msg) :
    ∀ (idx : List (String × Msg)) (q : String × Msg),
      q ∈ removed.foldl (fun idx m => eraseKey idx m.id) idx
        ↔ q ∈ idx ∧ ∀ m ∈ removed, q.1 ≠ m.id := by
  induction removed with
  | nil =>
    intro idx q
    simp
  | cons m rest ih =>
    intro idx q
    rw [List.foldl_cons, ih, mem_eraseKey]
    constructor
    · rintro ⟨⟨hq, hne⟩, hrest⟩
      refine ⟨hq, ?_⟩
      intro m' hm'
      rcases List.mem_cons.1 hm' with rfl | hm'
      · exact hne
      · exact hrest m' hm'
    · rintro ⟨hq, hall⟩
      exact ⟨⟨hq, hall m (List.mem_cons_self _ _)⟩,
        fun m' hm' => hall m' (List.mem_cons_of_mem _ hm')⟩

theorem nodup_keys_foldl_erase (removed : List Msg) :
    ∀ (idx : List (String × Msg)),
      ((idx.map Prod.fst).Nodup) →
      (((removed.foldl (fun idx m => eraseKey idx m.id) idx).map Prod.fst).Nodup) := by
  induction removed with
  | nil => intro idx h; exact h
  | cons m rest ih =>
    intro idx h
    rw [List.foldl_cons]
    exact ih _ (nodup_keys_eraseKey h)

theorem eraseFirstMsg_sublist (l : List Msg) (mid : String) :
    (eraseFirstMsg l mid).Sublist l := by
  induction l with
  | nil => simp [eraseFirstMsg]
  | cons m rest ih =>
    unfold eraseFirstMsg
    by_cases h : m.id = mid
    · rw [if_pos h]
      exact List.sublist_cons_self _ _
    · rw [if_neg h]
      exact List.Sublist.cons₂ _ ih

theorem mem_eraseFirstMsg {l : List Msg} {mid : String}
    (hnd : (l.map Msg.id).Nodup) {m : Msg} :
    m ∈ eraseFirstMsg l mid ↔ m ∈ l ∧ m.id ≠ mid := by
  induction l with
  | nil => simp [eraseFirstMsg]
  | cons m0 rest ih =>
    simp only [List.map_cons, List.nodup_cons] at hnd
    unfold eraseFirstMsg
    by_cases h0 : m0.id = mid
    · rw [if_pos h0]
      constructor
      · intro hm
        refine ⟨List.mem_cons_of_mem _ hm, ?_⟩
        intro hmid
        apply hnd.1
        have hmem : m.id ∈ List.map Msg.id rest := List.mem_map_of_mem Msg.id hm
        rw [hmid, ← h0] at hmem
        exact hmem
      · rintro ⟨hm, hne⟩
        rcases List.mem_cons.1 hm with rfl | hm
        · exact absurd h0 hne
        · exact hm
    · rw [if_neg h0]
      constructor
      · intro hm
        rcases List.mem_cons.1 hm with rfl | hm
        · exact ⟨List.mem_cons_self _ _, h0⟩
        · rcases (ih hnd.2).1 hm with ⟨hmem, hne⟩
          exact ⟨List.mem_cons_of_mem _ hmem, hne⟩
      · rintro ⟨hm, hne⟩
        rcases List.mem_cons.1 hm with rfl | hm
        · exact List.mem_cons_self _ _
        · exact List.mem_cons_of_mem _ ((ih hnd.2).2 ⟨hm, hne⟩)

/-! ### Claim C10: index consistency -/

theorem WF_push (store : MessageStore) (roomId userId content msgId : String) (now : Nat)
    (hWF : WF store) (hfresh : store.messageIndex.lookup msgId = none) :
    WF { messages := setKey store.messages roomId
           (((store.messages.lookup roomId).getD [])
             ++ [⟨msgId, roomId, userId, content, now⟩]),
         messageIndex := setKey store.messageIndex msgId
           ⟨msgId, roomId, userId, content, now⟩ } := by
  obtain ⟨hkM, hkI, hnl, hfw, hbw⟩ := hWF
  have hfresh' : ∀ p ∈ store.messages, ∀ m ∈ p.2, m.id ≠ msgId := by
    intro p hp m hm hid
    have := (hfw p hp m hm).2
    rw [hid, hfresh] at this
    cases this
  have hold : ∀ m ∈ (store.messages.lookup roomId).getD [], ∃ p ∈ store.messages,
      p.1 = roomId ∧ p.2 = (store.messages.lookup roomId).getD [] := by
    intro m hm
    cases hlk : store.messages.lookup roomId with
    | none => rw [hlk] at hm; simp at hm
    | some l => exact ⟨(roomId, l), lookup_some_mem hlk, rfl, rfl⟩
  refine ⟨nodup_keys_setKey hkM, nodup_keys_setKey hkI, ?_, ?_, ?_⟩
  · -- per-room message ids stay pairwise distinct
    intro p hp
    rcases mem_setKey.1 hp with ⟨hpold, _⟩ | rfl
    · exact hnl p hpold
    · simp only [List.map_append, List.map_cons, List.map_nil]
      rw [List.nodup_append]
      refine ⟨?_, List.nodup_singleton _, ?_⟩
      · cases hlk : store.messages.lookup roomId with
        | none => simp
        | some l => exact hnl (roomId, l) (lookup_some_mem hlk)
      · intro a ha hb
        simp only [List.mem_singleton] at hb
        subst hb
        rcases List.mem_map.1 ha with ⟨m, hm, hmid⟩
        rcases hold m hm with ⟨p', hp', hp'1, hp'2⟩
        exact hfresh' p' hp' m (hp'2 ▸ hm) hmid
  · -- every stored message is indexed under its id
    intro p hp m hm
    rcases mem_setKey.1 hp with ⟨hpold, hpne⟩ | rfl
    · have h := hfw p hpold m hm
      have hne : m.id ≠ msgId := hfresh' p hpold m hm
      exact ⟨h.1, by rw [lookup_setKey_ne _ _ _ hne]; exact h.2⟩
    · rcases List.mem_append.1 hm with hm | hm
      · rcases hold m hm with ⟨p', hp', hp'1, hp'2⟩
        have h := hfw p' hp' m (hp'2 ▸ hm)
        have hne : m.id ≠ msgId := hfresh' p' hp' m (hp'2 ▸ hm)
        exact ⟨h.1.trans hp'1, by rw [lookup_setKey_ne _ _ _ hne]; exact h.2⟩
      · simp only [List.mem_singleton] at hm
        subst hm
        exact ⟨rfl, lookup_setKey_self _ _ _⟩
  · -- every index entry points at a stored message
    intro q hq
    rcases mem_setKey.1 hq with ⟨hqold, hqne⟩ | rfl
    · obtain ⟨hid, p, hp, hp1, hqmem⟩ := hbw q hqold
      by_cases hproom : p.1 = roomId
      · have hlk : store.messages.lookup roomId = some p.2 := by
          rw [← hproom]
          exact lookup_of_mem_nodup hkM hp
        refine ⟨hid, (roomId, ((store.messages.lookup roomId).getD [])
            ++ [⟨msgId, roomId, userId, content, now⟩]), mem_setKey.2 (Or.inr rfl), ?_, ?_⟩
        · rw [← hp1, hproom]
        · rw [hlk]
          exact List.mem_append.2 (Or.inl hqmem)
      · exact ⟨hid, p, mem_setKey.2 (Or.inl ⟨hp, hproom⟩), hp1, hqmem⟩
    · refine ⟨rfl, (roomId, ((store.messages.lookup roomId).getD [])
          ++ [⟨msgId, roomId, userId, content, now⟩]), mem_setKey.2 (Or.inr rfl), rfl, ?_⟩
      exact List.mem_append.2 (Or.inr (List.mem_singleton.2 rfl))

end MStore

namespace MStore

theorem cleanupOldMessages_none (store : MessageStore) (roomId : String) (maxMessages : Nat)
    (hlk : store.messages.lookup roomId = none) :
    cleanupOldMessages store roomId maxMessages = store := by
  unfold cleanupOldMessages
  rw [hlk]

theorem cleanupOldMessages_found (store : MessageStore) (roomId : String) (maxMessages : Nat)
    (L : List Msg) (hlk : store.messages.lookup roomId = some L) :
    cleanupOldMessages store roomId maxMessages =
      if L.length > maxMessages then
        { messages := setKey store.messages roomId (L.drop (L.length - maxMessages)),
          messageIndex := (L.take (L.length - maxMessages)).foldl
            (fun idx m => eraseKey idx m.id) store.messageIndex }
      else store := by
  unfold cleanupOldMessages
  rw [hlk]

theorem WF_cleanup (store : MessageStore) (roomId : String) (maxMessages : Nat)
    (hWF : WF store) : WF (cleanupOldMessages store roomId maxMessages) := by
  obtain ⟨hkM, hkI, hnl, hfw, hbw⟩ := hWF
  cases hlk : store.messages.lookup roomId with
  | none =>
    rw [cleanupOldMessages_none store roomId maxMessages hlk]
    exact ⟨hkM, hkI, hnl, hfw, hbw⟩
  | some L =>
    rw [cleanupOldMessages_found store roomId maxMessages L hlk]
    by_cases hlen : L.length > maxMessages
    · rw [if_pos hlen]
      have hLmem : (roomId, L) ∈ store.messages := lookup_some_mem hlk
      have hLids : (L.map Msg.id).Nodup := hnl (roomId, L) hLmem
      have hsplit : L.take (L.length - maxMessages) ++ L.drop (L.length - maxMessages) = L :=
        List.take_append_drop _ L
      have hdisj : ∀ a ∈ (L.take (L.length - maxMessages)).map Msg.id,
          a ∉ (L.drop (L.length - maxMessages)).map Msg.id := by
        have hnd : ((L.take (L.length - maxMessages)).map Msg.id
            ++ (L.drop (L.length - maxMessages)).map Msg.id).Nodup := by
          rw [← List.map_append, hsplit]
          exact hLids
        exact fun a ha hb => (List.nodup_append.1 hnd).2.2 ha hb
      refine ⟨nodup_keys_setKey hkM, nodup_keys_foldl_erase _ _ hkI, ?_, ?_, ?_⟩
      · intro p hp
        rcases mem_setKey.1 hp with ⟨hpold, _⟩ | rfl
        · exact hnl p hpold
        · exact hLids.sublist (List.Sublist.map _ (List.drop_sublist _ _))
      · intro p hp m hm
        rcases mem_setKey.1 hp with ⟨hpold, hpne⟩ | rfl
        · have h := hfw p hpold m hm
          refine ⟨h.1, ?_⟩
          rw [lookup_foldl_erase, if_neg ?noid]
          · exact h.2
          case noid =>
            rintro ⟨m', hm', hid⟩
            have hm'L : m' ∈ L := (List.take_sublist _ _).subset hm'
            have h1 := hfw (roomId, L) hLmem m' hm'L
            have h2 := h1.2
            rw [hid, h.2] at h2
            have hmm : m = m' := Option.some.inj h2
            rw [← hmm] at h1
            exact hpne (h.1.symm.trans h1.1)
        · have hmL : m ∈ L := (List.drop_sublist _ _).subset hm
          have h := hfw (roomId, L) hLmem m hmL
          refine ⟨h.1, ?_⟩
          rw [lookup_foldl_erase, if_neg ?noid2]
          · exact h.2
          case noid2 =>
            rintro ⟨m', hm', hid⟩
            have hin : m'.id ∈ (L.take (L.length - maxMessages)).map Msg.id :=
              List.mem_map_of_mem _ hm'
            have hmem2 : m.id ∈ (L.drop (L.length - maxMessages)).map Msg.id :=
              List.mem_map_of_mem _ hm
            rw [hid] at hin
            exact hdisj _ hin hmem2
      · intro q hq
        rw [mem_foldl_erase] at hq
        obtain ⟨hqold, hqnotrem⟩ := hq
        obtain ⟨hid, p, hp, hp1, hqmem⟩ := hbw q hqold
        by_cases hproom : p.1 = roomId
        · have hpL : p = (roomId, L) := entry_eq_of_lookup hkM hlk hp hproom
          rw [hpL] at hqmem hp1
          have hsplitmem : q.2 ∈ L.take (L.length - maxMessages)
              ∨ q.2 ∈ L.drop (L.length - maxMessages) := by
            rw [← hsplit] at hqmem
            exact List.mem_append.1 hqmem
          rcases hsplitmem with hrem | hkept
          · exact absurd hid.symm (hqnotrem q.2 hrem)
          · exact ⟨hid, (roomId, L.drop (L.length - maxMessages)),
              mem_setKey.2 (Or.inr rfl), hp1, hkept⟩
        · exact ⟨hid, p, mem_setKey.2 (Or.inl ⟨hp, hproom⟩), hp1, hqmem⟩
    · rw [if_neg hlen]
      exact ⟨hkM, hkI, hnl, hfw, hbw⟩

theorem WF_addMessage (store : MessageStore) (roomId userId content msgId : String)
    (now : Nat) (hWF : WF store) (hfresh : store.messageIndex.lookup msgId = none) :
    WF (addMessage store roomId userId content msgId now).1 :=
  WF_cleanup _ _ _ (WF_push store roomId userId content msgId now hWF hfresh)

theorem deleteMessage_none (store : MessageStore) (messageId userId : String)
    (isModAction : Bool) (hlk : store.messageIndex.lookup messageId = none) :
    deleteMessage store messageId userId isModAction = (store, false) := by
  unfold deleteMessage
  rw [hlk]

theorem deleteMessage_found (store : MessageStore) (messageId userId : String)
    (isModAction : Bool) (msg : Msg) (L : List Msg)
    (hlk : store.messageIndex.lookup messageId = some msg)
    (hlk2 : store.messages.lookup msg.roomId = some L) :
    deleteMessage store messageId userId isModAction =
      if (!isModAction && msg.userId != userId) = true then (store, false)
      else
        ({ messages := setKey store.messages msg.roomId (eraseFirstMsg L messageId),
           messageIndex := eraseKey store.messageIndex messageId }, true) := by
  unfold deleteMessage
  rw [hlk]
  show (if (!isModAction && msg.userId != userId) = true then (store, false)
      else
        ({ messages :=
            match store.messages.lookup msg.roomId with
            | none => store.messages
            | some roomMessages =>
              setKey store.messages msg.roomId (eraseFirstMsg roomMessages messageId),
           messageIndex := eraseKey store.messageIndex messageId }, true)) = _
  rw [hlk2]

theorem WF_deleteMessage (store : MessageStore) (messageId userId : String)
    (isModAction : Bool) (hWF : WF store) :
    WF (deleteMessage store messageId userId isModAction).1 := by
  obtain ⟨hkM, hkI, hnl, hfw, hbw⟩ := hWF
  cases hlk : store.messageIndex.lookup messageId with
  | none =>
    rw [deleteMessage_none store messageId userId isModAction hlk]
    exact ⟨hkM, hkI, hnl, hfw, hbw⟩
  | some msg =>
    obtain ⟨hid, pstar, hpstar, hpfst, hmsgmem⟩ := hbw (messageId, msg) (lookup_some_mem hlk)
    have hlkroom : store.messages.lookup msg.roomId = some pstar.2 := by
      rw [← hpfst]
      exact lookup_of_mem_nodup hkM hpstar
    cases hlk2 : store.messages.lookup msg.roomId with
    | none =>
      rw [hlkroom] at hlk2
      cases hlk2
    | some L =>
      rw [deleteMessage_found store messageId userId isModAction msg L hlk hlk2]
      by_cases hauth : (!isModAction && msg.userId != userId) = true
      · rw [if_pos hauth]
        exact ⟨hkM, hkI, hnl, hfw, hbw⟩
      · rw [if_neg hauth]
        have hLeq : pstar.2 = L := by
          rw [hlkroom] at hlk2
          exact Option.some.inj hlk2
        have hpL : pstar = (msg.roomId, L) := by
          rcases pstar with ⟨a, b⟩
          simp only at hpfst hLeq
          rw [hpfst, hLeq]
        have hLm : (msg.roomId, L) ∈ store.messages := hpL ▸ hpstar
        have hLids : (L.map Msg.id).Nodup := hnl (msg.roomId, L) hLm
        have hmsgL : msg ∈ L := by
          rw [hpL] at hmsgmem
          exact hmsgmem
        refine ⟨nodup_keys_setKey hkM, nodup_keys_eraseKey hkI, ?_, ?_, ?_⟩
        · intro p hp
          rcases mem_setKey.1 hp with ⟨hpold, _⟩ | rfl
          · exact hnl p hpold
          · exact hLids.sublist (List.Sublist.map _ (eraseFirstMsg_sublist L messageId))
        · intro p hp m hm
          rcases mem_setKey.1 hp with ⟨hpold, hpne⟩ | rfl
          · have h := hfw p hpold m hm
            have hne : m.id ≠ messageId := by
              intro hEq
              have h2 := h.2
              rw [hEq, hlk] at h2
              have hmm : msg = m := Option.some.inj h2
              rw [← hmm] at h
              exact hpne (h.1.symm ▸ rfl)
            exact ⟨h.1, by rw [lookup_eraseKey_ne _ _ hne]; exact h.2⟩
          · rcases (mem_eraseFirstMsg hLids).1 hm with ⟨hmL, hne⟩
            have h := hfw (msg.roomId, L) hLm m hmL
            exact ⟨h.1, by rw [lookup_eraseKey_ne _ _ hne]; exact h.2⟩
        · intro q hq
          rcases mem_eraseKey.1 hq with ⟨hqold, hqne⟩
          obtain ⟨hid', p', hp', hp'1, hqmem'⟩ := hbw q hqold
          by_cases hp'room : p'.1 = msg.roomId
          · have hp'L : p' = (msg.roomId, L) := entry_eq_of_lookup hkM hlk2 hp' hp'room
            rw [hp'L] at hqmem' hp'1
            refine ⟨hid', (msg.roomId, eraseFirstMsg L messageId),
              mem_setKey.2 (Or.inr rfl), hp'1, ?_⟩
            refine (mem_eraseFirstMsg hLids).2 ⟨hqmem', ?_⟩
            rw [hid']
            exact hqne
          · exact ⟨hid', p', mem_setKey.2 (Or.inl ⟨hp', hp'room⟩), hp'1, hqmem'⟩

theorem getMessage_none_iff (store : MessageStore) (hWF : WF store) (mid : String) :
    getMessage store mid = none ↔ ∀ p ∈ store.messages, ∀ m ∈ p.2, m.id ≠ mid := by
  obtain ⟨hkM, hkI, hnl, hfw, hbw⟩ := hWF
  unfold getMessage
  constructor
  · intro hnone p hp m hm hid
    have h := (hfw p hp m hm).2
    rw [hid, hnone] at h
    cases h
  · intro hall
    cases hq : store.messageIndex.lookup mid with
    | none => rfl
    | some msg =>
      obtain ⟨hid, p, hp, _, hmem⟩ := hbw (mid, msg) (lookup_some_mem hq)
      exact absurd hid (hall p hp msg hmem)

/-- Claim C10: the id index and the per-room histories stay mutually
consistent — preserved by `addMessage` (fresh id), by `deleteMessage`, and by
the cap-triggered eviction inside `addMessage`; consequently `getMessage`
returns `none` exactly when no room history holds a message with that id
(never added, deleted, or evicted). -/
theorem index_consistency (store : MessageStore) (hWF : WF store) :
    (∀ roomId userId content msgId now, store.messageIndex.lookup msgId = none →
        WF (addMessage store roomId userId content msgId now).1)
  ∧ (∀ messageId userId isModAction,
        WF (deleteMessage store messageId userId isModAction).1)
  ∧ (∀ mid, getMessage store mid = none ↔
        ∀ p ∈ store.messages, ∀ m ∈ p.2, m.id ≠ mid) :=
  ⟨fun roomId userId content msgId now hfresh =>
      WF_addMessage store roomId userId content msgId now hWF hfresh,
   fun messageId userId isModAction => WF_deleteMessage store messageId userId isModAction hWF,
   fun mid => getMessage_none_iff store hWF mid⟩

/-- Witness for C10 at a concrete store. -/
theorem index_consistency_witness :
    WF (addMessage emptyStore "general" "u1" "hi" "m1" 0).1
  ∧ (getMessage emptyStore "m1" = none ↔
      ∀ p ∈ emptyStore.messages, ∀ m ∈ p.2, m.id ≠ "m1") :=
  ⟨(index_consistency emptyStore (by decide)).1 "general" "u1" "hi" "m1" 0 rfl,
   (index_consistency emptyStore (by decide)).2.2 "m1"⟩

end MStore

namespace MStore

/-! ### Claim C2: bounded FIFO history -/

theorem history_addMessage (store : MessageStore) (roomId userId content msgId : String)
    (now : Nat) :
    history (addMessage store roomId userId content msgId now).1 roomId
      = (history store roomId ++ [(⟨msgId, roomId, userId, content, now⟩ : Msg)]).drop
          (((history store roomId).length + 1) - maxMessagesPerRoom) := by
  simp only [addMessage, history]
  rw [cleanupOldMessages_found
    { messages := setKey store.messages roomId
        (((store.messages.lookup roomId).getD [])
          ++ [(⟨msgId, roomId, userId, content, now⟩ : Msg)]),
      messageIndex := setKey store.messageIndex msgId ⟨msgId, roomId, userId, content, now⟩ }
    roomId maxMessagesPerRoom
    (((store.messages.lookup roomId).getD [])
      ++ [(⟨msgId, roomId, userId, content, now⟩ : Msg)])
    (lookup_setKey_self _ _ _)]
  by_cases hlen : (((store.messages.lookup roomId).getD [])
      ++ [(⟨msgId, roomId, userId, content, now⟩ : Msg)]).length > maxMessagesPerRoom
  · rw [if_pos hlen]
    rw [lookup_setKey_self]
    simp only [Option.getD_some]
    rw [List.length_append, List.length_singleton]
  · rw [if_neg hlen]
    rw [lookup_setKey_self]
    simp only [Option.getD_some]
    rw [List.length_append, List.length_singleton] at hlen
    rw [Nat.sub_eq_zero_of_le (by omega), List.drop_zero]

theorem history_addMessage_length (store : MessageStore)
    (roomId userId content msgId : String) (now : Nat) :
    (history (addMessage store roomId userId content msgId now).1 roomId).length
      ≤ maxMessagesPerRoom := by
  rw [history_addMessage store roomId userId content msgId now]
  rw [List.length_drop, List.length_append, List.length_singleton]
  omega

theorem history_addMessages (roomId userId : String) (items : List (String × String)) :
    ∀ (store : MessageStore), (history store roomId).length ≤ maxMessagesPerRoom →
      history (addMessages store roomId userId items) roomId
        = (history store roomId
            ++ items.map (fun it => (⟨it.1, roomId, userId, it.2, 0⟩ : Msg))).drop
            (((history store roomId).length + items.length) - maxMessagesPerRoom) := by
  induction items with
  | nil =>
    intro store hb
    simp only [addMessages, List.foldl_nil, List.map_nil, List.append_nil, List.length_nil]
    rw [Nat.add_zero, Nat.sub_eq_zero_of_le hb, List.drop_zero]
  | cons it rest ih =>
    intro store hb
    have hstep : addMessages store roomId userId (it :: rest)
        = addMessages (addMessage store roomId userId it.2 it.1 0).1 roomId userId rest := rfl
    rw [hstep]
    have ihs := ih (addMessage store roomId userId it.2 it.1 0).1
      (history_addMessage_length store roomId userId it.2 it.1 0)
    rw [ihs, history_addMessage store roomId userId it.2 it.1 0]
    have hle : ((history store roomId).length + 1) - maxMessagesPerRoom
        ≤ (history store roomId ++ [(⟨it.1, roomId, userId, it.2, 0⟩ : Msg)]).length := by
      rw [List.length_append, List.length_singleton]
      omega
    rw [← List.drop_append_of_le_length hle]
    rw [List.drop_drop]
    rw [List.length_drop, List.length_append, List.length_singleton]
    rw [List.map_cons, List.length_cons]
    rw [List.append_assoc, List.singleton_append]
    have harith : (history store roomId).length + 1 - maxMessagesPerRoom +
        ((history store roomId).length + 1
          - ((history store roomId).length + 1 - maxMessagesPerRoom)
          + rest.length - maxMessagesPerRoom)
        = (history store roomId).length + (rest.length + 1) - maxMessagesPerRoom := by
      omega
    rw [harith]

theorem mkId_inj {n m : Nat} (h : mkId n = mkId m) : n = m := by
  unfold mkId at h
  injection h with h2
  have h3 := congrArg List.length h2
  simpa using h3

theorem capItems_map (n : Nat) :
    (capItems n).map (fun it => (⟨it.1, "general", "alice", it.2, 0⟩ : Msg)) = capMsgs n := by
  unfold capItems capMsgs
  rw [List.map_map]
  rfl

theorem capFinal_history : history capFinal "general" = (capMsgs 1001).drop 1 := by
  unfold capFinal
  rw [history_addMessages "general" "alice" (capItems 1001) emptyStore (by decide)]
  rw [capItems_map]
  have hlen : (capItems 1001).length = 1001 := by
    unfold capItems
    rw [List.length_map, List.length_range]
  have hemp : history emptyStore "general" = [] := rfl
  rw [hemp, hlen, List.nil_append, List.length_nil]
  rfl

theorem capFinal_length : (history capFinal "general").length = maxMessagesPerRoom := by
  rw [capFinal_history, List.length_drop]
  have h : (capMsgs 1001).length = 1001 := by
    unfold capMsgs
    rw [List.length_map, List.length_range]
  rw [h]
  rfl

theorem capFinal_first_evicted : idInList (history capFinal "general") (mkId 0) = false := by
  rw [capFinal_history]
  unfold capMsgs idInList
  rw [List.any_eq_false]
  intro m hm
  rw [List.range_succ_eq_map, List.map_cons, List.drop_one, List.tail_cons, List.map_map] at hm
  rcases List.mem_map.1 hm with ⟨i, _, hfi⟩
  rw [← hfi]
  intro hbeq
  have hEq : mkId (Nat.succ i) = mkId 0 := by simpa using hbeq
  exact Nat.succ_ne_zero i (mkId_inj hEq)

end MStore

namespace Chat

theorem sendMessage_history (st : ChatState) (sid content msgId : String) (now : Nat)
    (s : ChatSession) (rid : String) (room : ChatRoom)
    (hs : st.sessions.lookup sid = some s) (hcur : s.currentRoom = some rid)
    (hr : st.rooms.lookup rid = some room) :
    ∃ room', (sendMessage st sid content msgId now).2.1.rooms.lookup rid = some room'
      ∧ room'.messages
          = (room.messages
              ++ [(⟨msgId, content, s.userId, s.username, rid, now, false⟩ : ChatMessage)]).drop
              ((room.messages.length + 1) - 100)
      ∧ room'.messages.length ≤ 100 := by
  simp only [sendMessage, hs, hcur, hr]
  refine ⟨_, lookup_setKey_self _ _ _, ?_, ?_⟩
  · by_cases hlen : (room.messages
        ++ [(⟨msgId, content, s.userId, s.username, rid, now, false⟩ : ChatMessage)]).length > 100
    · rw [if_pos hlen]
      show List.drop _ _ = _
      rw [List.length_append, List.length_singleton]
    · rw [if_neg hlen]
      rw [List.length_append, List.length_singleton] at hlen
      rw [Nat.sub_eq_zero_of_le (by omega), List.drop_zero]
  · by_cases hlen : (room.messages
        ++ [(⟨msgId, content, s.userId, s.username, rid, now, false⟩ : ChatMessage)]).length > 100
    · rw [if_pos hlen]
      rw [List.length_drop, List.length_append, List.length_singleton]
      omega
    · rw [if_neg hlen]
      rw [List.length_append, List.length_singleton] at hlen ⊢
      omega

end Chat

namespace MStore

/-- Claim C2: appending to a room history keeps at most the newest
`maxMessagesPerRoom = 1000` messages, evicting from the front (FIFO) — the new
history is always a suffix of the old-plus-new sequence; in particular 1001
sequential sends into `general` leave exactly messages 2..1001 (length 1000,
the first message evicted).  The `ChatManager.sendMessage` path enforces the
same FIFO policy with its cap of 100. -/
theorem history_bounded_fifo :
    (∀ store roomId userId content msgId now,
        history (addMessage store roomId userId content msgId now).1 roomId
          = (history store roomId ++ [(⟨msgId, roomId, userId, content, now⟩ : Msg)]).drop
              (((history store roomId).length + 1) - maxMessagesPerRoom)
      ∧ (history (addMessage store roomId userId content msgId now).1 roomId).length
          ≤ maxMessagesPerRoom)
  ∧ (history capFinal "general").length = maxMessagesPerRoom
  ∧ history capFinal "general" = (capMsgs 1001).drop 1
  ∧ idInList (history capFinal "general") (mkId 0) = false
  ∧ (∀ st sid content msgId now s rid room,
      st.sessions.lookup sid = some s → s.currentRoom = some rid →
      st.rooms.lookup rid = some room →
      ∃ room', (Chat.sendMessage st sid content msgId now).2.1.rooms.lookup rid = some room'
        ∧ room'.messages
            = (room.messages
                ++ [(⟨msgId, content, s.userId, s.username, rid, now,
                      false⟩ : Chat.ChatMessage)]).drop
                ((room.messages.length + 1) - 100)
        ∧ room'.messages.length ≤ 100) :=
  ⟨fun store roomId userId content msgId now =>
    ⟨history_addMessage store roomId userId content msgId now,
     history_addMessage_length store roomId userId content msgId now⟩,
   capFinal_length, capFinal_history, capFinal_first_evicted,
   fun st sid content msgId now s rid room hs hcur hr =>
     Chat.sendMessage_history st sid content msgId now s rid room hs hcur hr⟩

/-- Witness for C2's `sendMessage` clause at a concrete state. -/
theorem history_bounded_fifo_witness :
    ∃ room', (Chat.sendMessage Chat.exB "s1" "hello" "m1" 0).2.1.rooms.lookup "general"
        = some room'
      ∧ room'.messages
          = (([] : List Chat.ChatMessage)
              ++ [(⟨"m1", "hello", "u1", "alice", "general", 0,
                    false⟩ : Chat.ChatMessage)]).drop ((0 + 1) - 100)
      ∧ room'.messages.length ≤ 100 :=
  history_bounded_fifo.2.2.2.2 Chat.exB "s1" "hello" "m1" 0
    ⟨"u1", "alice", some "general", false⟩ "general" ⟨"General", "", false, ["u1", "u2"], []⟩
    rfl rfl rfl

end MStore

namespace Chat

/-- Witness for C4 at a concrete two-session state. -/
theorem leaveRoom_twice_state_idempotent_witness :
    (leaveRoom (leaveRoom exB "s1" "general").1 "s1" "general").1
      = (leaveRoom exB "s1" "general").1 :=
  leaveRoom_twice_state_idempotent exB "s1" "general"

end Chat

namespace SessionMgr

/-- Witness for C9: the amended characterization applied at a concrete name. -/
theorem validateUsername_spec_witness :
    ((validateUsername ⟨[("u1", ⟨"Alice", Status.online, 0⟩)], []⟩ "bob_1").valid = true) ↔
      (2 ≤ ("bob_1" : String).length ∧ ("bob_1" : String).length ≤ 20
        ∧ (∀ c ∈ ("bob_1" : String).data, isAllowedChar c = true)
        ∧ (∀ p ∈ (⟨[("u1", ⟨"Alice", Status.online, 0⟩)], []⟩ : SState).users,
            lowerStr p.2.username ≠ lowerStr "bob_1")) :=
  validateUsername_spec ⟨[("u1", ⟨"Alice", Status.online, 0⟩)], []⟩ "bob_1"

end SessionMgr
